import Mathlib

/-! The Salesforce content-block fetcher of jet-example.

A shallow embedding of `internal/fetcher/salesforce/client.go`:
the page-count computation of `FetchContentBlocks` (done in `float64`),
the token cache of `fetchAccessToken`, and the concurrent fan-out over pages.
-/

namespace Salesforce

/-! ## float64 arithmetic used by the page count

`totalPages := int(math.Ceil(float64(Count) / float64(PageSize)))`.
The conversions and the division round to nearest, ties to even, with a
53-bit significand.  Both operands are images of 64-bit integers, so every
quotient lies between `2^-63` and `2^63`, well inside the normal exponent
range; the exponent is therefore kept unbounded. -/

/-- Binary logarithm by repeated halving, at most `fuel` times. -/
def ilog2Aux : Nat → Nat → Nat
  | 0, _ => 0
  | fuel + 1, n => if n < 2 then 0 else ilog2Aux fuel (n / 2) + 1

/-- Position of the leading bit of `n`: `2 ^ ilog2 n ≤ n < 2 ^ (ilog2 n + 1)`. -/
def ilog2 (n : Nat) : Nat := ilog2Aux n n

/-- Round the positive rational `N / D` to 53 significant bits, nearest-even.
The result `(m, e)` stands for `m * 2 ^ e`. -/
def roundQuot (N D : Nat) : Nat × Int :=
  let sN := (ilog2 D + 52) - ilog2 N
  let sD := ilog2 N - (ilog2 D + 52)
  let n0 := N * 2 ^ sN
  let d := D * 2 ^ sD
  let x : Nat := if n0 < d * 2 ^ 52 then 1 else 0
  let n := n0 * 2 ^ x
  let m := n / d
  let r := n % d
  let m' := if d < 2 * r ∨ (2 * r = d ∧ m % 2 = 1) then m + 1 else m
  (m', (sD : Int) - (sN : Int) - (x : Int))

/-- The value of `float64(i)` for an integer `i`; it is again an integer. -/
def float64OfInt (i : Int) : Int :=
  if i = 0 then 0
  else
    let me := roundQuot i.natAbs 1
    let v : Nat := me.1 * 2 ^ me.2.toNat / 2 ^ (-me.2).toNat
    if i < 0 then -(v : Int) else (v : Int)

/-- The float64 values a quotient of two integer-valued floats can take. -/
inductive F64 where
  | nan : F64
  | inf (neg : Bool) : F64
  | fin (neg : Bool) (m : Nat) (e : Int) : F64
  deriving DecidableEq, Repr

/-- Float division `a / b` of two integer-valued floats. -/
def fdiv (a b : Int) : F64 :=
  if b = 0 then
    if a = 0 then F64.nan else F64.inf (decide (a < 0))
  else if a = 0 then F64.fin (decide (b < 0)) 0 0
  else
    let me := roundQuot a.natAbs b.natAbs
    F64.fin (xor (decide (a < 0)) (decide (b < 0))) me.1 me.2

/-- The function `math.Ceil`. -/
def ceil : F64 → F64
  | F64.nan => F64.nan
  | F64.inf s => F64.inf s
  | F64.fin neg m e =>
    if 0 ≤ e then F64.fin neg m e
    else if neg then F64.fin true (m / 2 ^ (-e).toNat) 0
    else F64.fin false ((m + 2 ^ (-e).toNat - 1) / 2 ^ (-e).toNat) 0

/-- The conversion `int(f)` on a 64-bit platform: truncation toward zero.
For NaN, the infinities and values outside the `int64` range the Go
specification leaves the result implementation-dependent: `none`. -/
def toInt : F64 → Option Int
  | F64.nan => none
  | F64.inf _ => none
  | F64.fin neg m e =>
    let mag : Nat := m * 2 ^ e.toNat / 2 ^ (-e).toNat
    let v : Int := if neg then -(mag : Int) else (mag : Int)
    if -(2 : Int) ^ 63 ≤ v ∧ v < (2 : Int) ^ 63 then some v else none

/-- The page count of `FetchContentBlocks`, client.go line 66. -/
def totalPages (count pageSize : Int) : Option Int :=
  toInt (ceil (fdiv (float64OfInt count) (float64OfInt pageSize)))

/-! ## Domain types (`internal/domain/content.go`, `token.go`, `content.go`) -/

/-- The record `domain.ContentBlock`. -/
structure ContentBlock where
  content : String
  deriving DecidableEq, Repr

/-- One operand of the query of a `domain.ContentBlocksRequest`.  The field
`Value interface{}` holds JSON-encodable data, kept here as its JSON text. -/
structure Operand where
  property : String
  simpleOperator : String
  value : String
  deriving DecidableEq, Repr

/-- The `Query` field of `domain.ContentBlocksRequest`. -/
structure Query where
  leftOperand : Operand
  logicalOperator : String
  rightOperand : Operand
  deriving DecidableEq, Repr

/-- One entry of the `Sort` field of `domain.ContentBlocksRequest`. -/
structure SortKey where
  property : String
  direction : String
  deriving DecidableEq, Repr

/-- The record `domain.ContentBlocksRequest`; `page` and `pageSize` are the two
fields of its `Page` struct. -/
structure ContentBlocksRequest where
  page : Int
  pageSize : Int
  query : Query
  sort : List SortKey
  fields : List String
  deriving DecidableEq, Repr

/-- The zero value `domain.ContentBlocksRequest{}`. -/
def ContentBlocksRequest.zero : ContentBlocksRequest :=
  { page := 0, pageSize := 0,
    query := { leftOperand := ⟨"", "", "null"⟩, logicalOperator := "",
               rightOperand := ⟨"", "", "null"⟩ },
    sort := [], fields := [] }

/-- The record `ContentAssetsResponse`. -/
structure ContentAssetsResponse where
  count : Int
  page : Int
  pageSize : Int
  items : List ContentBlock
  deriving DecidableEq, Repr

/-- The record `TokenRequest`. -/
structure TokenRequest where
  grantType : String
  clientID : String
  clientSecret : String
  deriving DecidableEq, Repr

/-- The record `TokenResponse`. -/
structure TokenResponse where
  accessToken : String
  expiresIn : Int
  restInstanceURL : String
  deriving DecidableEq, Repr

/-- The zero value `TokenResponse{}`. -/
def TokenResponse.zero : TokenResponse := ⟨"", 0, ""⟩

/-- The record `Config`. -/
structure Config where
  authURL : String
  clientID : String
  clientSecret : String
  deriving DecidableEq, Repr

/-! ## The outside world: HTTP and the clock -/

/-- What `http.Client.Do` followed by the JSON decoding of the body can give:
a transport error with its text, or a response with its status code and its
body decoded (`none` when the body is not well-formed). -/
inductive HttpResult (α : Type) where
  | transportError (msg : String) : HttpResult α
  | response (status : Int) (body : Option α) : HttpResult α
  deriving DecidableEq, Repr

/-- The servers and the HTTP library.  `newRequestErr url` is the error text of
`http.NewRequestWithContext` when it rejects `url`.  `authDo` answers the token
request.  `pageDo k` answers the page request that is issued after `k` earlier
page requests of the same run, so that a server may answer the same request
differently at different times. -/
structure Env where
  newRequestErr : String → Option String
  decodeErr : String
  authDo : String → TokenRequest → HttpResult TokenResponse
  pageDo : Nat → String → String → ContentBlocksRequest → HttpResult ContentAssetsResponse

/-- Observable effects of the client, in the order they happen. -/
inductive Event where
  | authRequest (url : String) (body : TokenRequest) : Event
  | cacheSet (key value : String) (d : Int) : Event
  | pageRequest (url accessToken : String) (body : ContentBlocksRequest) : Event
  deriving DecidableEq, Repr

/-- The page requests among a list of events, oldest first. -/
def pageRequests : List Event → List ContentBlocksRequest
  | [] => []
  | Event.pageRequest _ _ body :: t => body :: pageRequests t
  | _ :: t => pageRequests t

/-- The number of token requests among a list of events. -/
def authRequests : List Event → Nat
  | [] => 0
  | Event.authRequest _ _ :: t => authRequests t + 1
  | _ :: t => authRequests t

/-! ## The cache (`github.com/patrickmn/go-cache`)

Times are Unix nanoseconds, durations are nanoseconds.  The client only ever
stores strings under its two keys, so cached objects are strings and the
assertions `.(string)` of `getCachedToken` always succeed. -/

/-- A cached item: the object and the instant after which it is expired
(`0`: never). -/
structure Item where
  object : String
  expiration : Int
  deriving DecidableEq, Repr

/-- The cache: its default time-to-live and its items. -/
structure Cache where
  defaultExpiration : Int
  items : List (String × Item)
  deriving DecidableEq, Repr

/-- The method `Cache.Set(k, x, d)` at instant `now`: a duration `0` selects the
default time-to-live, a positive one expires at `now + d`, a negative one never. -/
def Cache.set (c : Cache) (now : Int) (k x : String) (d : Int) : Cache :=
  let d1 := if d = 0 then c.defaultExpiration else d
  let e := if 0 < d1 then now + d1 else 0
  { c with items := (k, { object := x, expiration := e }) :: c.items.filter (fun p => p.1 ≠ k) }

/-- The method `Cache.Get(k)` at instant `now`: an item is found unless it is
absent or `now` is after its expiration. -/
def Cache.get (c : Cache) (now : Int) (k : String) : Option String :=
  match c.items.lookup k with
  | none => none
  | some item =>
    if 0 < item.expiration ∧ item.expiration < now then none else some item.object

/-! ## The token (`client.go`, lines 18-22 and 110-187) -/

/-- Cache key of the access token. -/
def cacheKeyAccessTokenKey : String := "accessToken"

/-- Cache key of the REST instance URL. -/
def cacheKeyRestInstanceURLKey : String := "restInstanceURL"

/-- Wrap-around of 64-bit signed arithmetic (`time.Duration` is an `int64`). -/
def wrap64 (x : Int) : Int := (x + 2 ^ 63) % 2 ^ 64 - 2 ^ 63

/-- The duration `time.Second`, in nanoseconds. -/
def second : Int := 1000000000

/-- The duration `time.Minute`, in nanoseconds. -/
def minute : Int := 60 * second

/-- The method `getCachedToken`. -/
def getCachedToken (cache : Cache) (now : Int) : TokenResponse × Bool :=
  match cache.get now cacheKeyAccessTokenKey, cache.get now cacheKeyRestInstanceURLKey with
  | some accessToken, some instanceURL =>
    ({ accessToken := accessToken, expiresIn := 0, restInstanceURL := instanceURL }, true)
  | _, _ => (TokenResponse.zero, false)

/-- The method `fetchAccessToken`, called at instant `now` on a client with
configuration `cfg` and cache `cache`.  Returns the Go results (token, error),
the cache afterwards and the effects of the call. -/
def fetchAccessToken (env : Env) (cfg : Config) (now : Int) (cache : Cache) :
    (TokenResponse × Option String) × Cache × List Event :=
  let cached := getCachedToken cache now
  if cached.2 then ((cached.1, none), cache, [])
  else
    let authURL := cfg.authURL ++ "/v2/token"
    let request : TokenRequest :=
      { grantType := "client_credentials", clientID := cfg.clientID,
        clientSecret := cfg.clientSecret }
    match env.newRequestErr authURL with
    | some msg =>
      ((TokenResponse.zero, some ("failed to create HTTP request: " ++ msg)), cache, [])
    | none =>
      let sent := [Event.authRequest authURL request]
      match env.authDo authURL request with
      | HttpResult.transportError msg =>
        ((TokenResponse.zero, some ("failed to perform HTTP request: " ++ msg)), cache, sent)
      | HttpResult.response status body =>
        if status ≠ 200 then
          if status = 401 then ((TokenResponse.zero, some "unauthorized"), cache, sent)
          else
            ((TokenResponse.zero,
              some ("failed to fetch access token, status code: " ++ toString status)),
             cache, sent)
        else
          match body with
          | none =>
            ((TokenResponse.zero, some ("failed to decode response body: " ++ env.decodeErr)),
             cache, sent)
          | some tokenResponse =>
            let expiration := wrap64 (tokenResponse.expiresIn * second)
            let safeExpiration := wrap64 (expiration - 2 * minute)
            if 0 < safeExpiration then
              let cache1 := cache.set now cacheKeyAccessTokenKey tokenResponse.accessToken
                expiration
              let cache2 := cache1.set now cacheKeyRestInstanceURLKey
                tokenResponse.restInstanceURL expiration
              ((tokenResponse, none), cache2,
                sent ++ [Event.cacheSet cacheKeyAccessTokenKey tokenResponse.accessToken
                          expiration,
                        Event.cacheSet cacheKeyRestInstanceURLKey
                          tokenResponse.restInstanceURL expiration])
            else ((tokenResponse, none), cache, sent)

/-! ## One page (`client.go`, lines 189-232) -/

/-- The zero value `ContentAssetsResponse{}`. -/
def ContentAssetsResponse.zero : ContentAssetsResponse := ⟨0, 0, 0, []⟩

/-- The function `fetchSingleAssetPage`, called after the events `trace`.
Returns the Go results (response, error) and the events extended by the
request, when one is sent. -/
def fetchSingleAssetPage (env : Env) (instanceURL accessToken : String)
    (request : ContentBlocksRequest) (trace : List Event) :
    (ContentAssetsResponse × Option String) × List Event :=
  let url := instanceURL ++ "/asset/v1/content/assets/query"
  match env.newRequestErr url with
  | some msg =>
    ((ContentAssetsResponse.zero, some ("failed to create HTTP request: " ++ msg)), trace)
  | none =>
    let trace1 := trace ++ [Event.pageRequest url accessToken request]
    match env.pageDo (pageRequests trace).length url accessToken request with
    | HttpResult.transportError msg =>
      ((ContentAssetsResponse.zero, some ("failed to perform HTTP request: " ++ msg)), trace1)
    | HttpResult.response status body =>
      if status ≠ 200 then
        ((ContentAssetsResponse.zero,
          some ("failed to fetch assets, status code: " ++ toString status)), trace1)
      else
        match body with
        | none =>
          ((ContentAssetsResponse.zero,
            some ("failed to decode response body: " ++ env.decodeErr)), trace1)
        | some response => ((response, none), trace1)

/-! ## The fan-out over pages (`client.go`, lines 68-105)

Every goroutine runs three steps: it writes its page number into the captured
variable `request`, it calls `fetchSingleAssetPage` with the value `request`
has at that moment, and it sends its blocks on the channel.  The goroutines
share `request`; a schedule is the order in which their steps are taken. -/

/-- A goroutine of the fan-out: the page it was started for, the number of
steps it has taken, and the blocks it is going to send. -/
structure Task where
  page : Int
  pc : Nat
  blocks : List ContentBlock
  deriving DecidableEq, Repr

/-- The state shared by the goroutines: the captured variable `request`, the
buffered channel, the events so far, and the goroutines themselves. -/
structure FanOut where
  request : ContentBlocksRequest
  chan : List (List ContentBlock)
  trace : List Event
  tasks : List Task
  deriving DecidableEq, Repr

/-- One step of one goroutine, on the shared variable, channel and events. -/
def stepTask (env : Env) (instanceURL accessToken : String) (g : Task)
    (request : ContentBlocksRequest) (chan : List (List ContentBlock)) (trace : List Event) :
    Task × ContentBlocksRequest × List (List ContentBlock) × List Event :=
  match g.pc with
  | 0 => ({ g with pc := 1 }, { request with page := g.page }, chan, trace)
  | 1 =>
    let r := fetchSingleAssetPage env instanceURL accessToken request trace
    match r.1.2 with
    | some _ => ({ g with pc := 2, blocks := [] }, request, chan, r.2)
    | none => ({ g with pc := 2, blocks := r.1.1.items }, request, chan, r.2)
  | 2 => ({ g with pc := 3 }, request, chan ++ [g.blocks], trace)
  | _ => (g, request, chan, trace)

/-- The goroutine at position `i` takes its next step, if it has one. -/
def step (env : Env) (instanceURL accessToken : String) (s : FanOut) (i : Nat) : FanOut :=
  match s.tasks[i]? with
  | none => s
  | some g =>
    let r := stepTask env instanceURL accessToken g s.request s.chan s.trace
    { request := r.2.1, chan := r.2.2.1, trace := r.2.2.2, tasks := s.tasks.set i r.1 }

/-- The goroutines launched by the loop `for page := 1; page <= totalPages; page++`. -/
def spawn (totalPages : Nat) : List Task :=
  (List.range totalPages).map (fun (i : Nat) => { page := (i : Int) + 1, pc := 0, blocks := [] })

/-- The steps of a schedule, in order. -/
def runSchedule (env : Env) (instanceURL accessToken : String) (schedule : List Nat)
    (s : FanOut) : FanOut :=
  schedule.foldl (step env instanceURL accessToken) s

/-- The call `wg.Wait()`: every goroutine that is not done yet runs to its
end, so the wait always returns. -/
def waitAll (env : Env) (instanceURL accessToken : String) (s : FanOut) : FanOut :=
  (List.range s.tasks.length).foldl
    (fun s i => step env instanceURL accessToken
      (step env instanceURL accessToken (step env instanceURL accessToken s i) i) i) s

/-- The whole fan-out for `totalPages` pages: the goroutines are launched, take
the steps of the schedule, and are waited for.  `request` is the captured
variable as the first-page fetch left it, `trace` the events before. -/
def fanOut (env : Env) (instanceURL accessToken : String) (schedule : List Nat)
    (request : ContentBlocksRequest) (trace : List Event) (totalPages : Nat) : FanOut :=
  waitAll env instanceURL accessToken
    (runSchedule env instanceURL accessToken schedule
      { request := request, chan := [], trace := trace, tasks := spawn totalPages })

/-! ## `FetchContentBlocks` (`client.go`, lines 42-108) -/

/-- The first-page fetch of `FetchContentBlocks` (lines 52-60): page 1 of the
caller's request, asked with the token that `fetchAccessToken` returned. -/
def firstPage (env : Env) (cfg : Config) (now : Int) (cache : Cache)
    (request : ContentBlocksRequest) :
    (ContentAssetsResponse × Option String) × List Event :=
  let tok := fetchAccessToken env cfg now cache
  fetchSingleAssetPage env tok.1.1.restInstanceURL tok.1.1.accessToken
    { request with page := 1 } tok.2.2

/-- How a call ends: it returns, it panics, or its behaviour depends on the
implementation (an out-of-range float-to-int conversion). -/
inductive Outcome (α : Type) where
  | returned (a : α) : Outcome α
  | panicked : Outcome α
  | implementationDependent : Outcome α
  deriving DecidableEq, Repr

/-- The method `FetchContentBlocks`, called at instant `now` with the
goroutines scheduled by `schedule`.  Returns the Go results (blocks, error)
when the call returns, the cache afterwards and the events of the call.  A nil
slice is the empty list.  `make(chan, totalPages)` panics on a negative size;
memory is not bounded. -/
def FetchContentBlocks (env : Env) (cfg : Config) (now : Int) (schedule : List Nat)
    (cache : Cache) (request : ContentBlocksRequest) :
    Outcome (List ContentBlock × Option String) × Cache × List Event :=
  let tok := fetchAccessToken env cfg now cache
  match tok.1.2 with
  | some err =>
    (Outcome.returned ([], some ("failed to fetch access token: " ++ err)), tok.2.1, tok.2.2)
  | none =>
    let tokenResponse := tok.1.1
    let request1 := { request with page := 1 }
    let first := firstPage env cfg now cache request
    match first.1.2 with
    | some err =>
      (Outcome.returned ([], some ("failed to fetch first page of assets: " ++ err)),
        tok.2.1, first.2)
    | none =>
      match totalPages first.1.1.count first.1.1.pageSize with
      | none => (Outcome.implementationDependent, tok.2.1, first.2)
      | some n =>
        if n < 0 then (Outcome.panicked, tok.2.1, first.2)
        else
          let s := fanOut env tokenResponse.restInstanceURL tokenResponse.accessToken schedule
            request1 first.2 n.toNat
          (Outcome.returned (s.chan.flatten, none), tok.2.1, s.trace)

/-- Two requests agree on everything but the page number. -/
def sameFrame (a b : ContentBlocksRequest) : Prop :=
  a.pageSize = b.pageSize ∧ a.query = b.query ∧ a.sort = b.sort ∧ a.fields = b.fields

/-! ## Concrete servers and inputs, after `client_test.go` -/

/-- First block of the test server. -/
def block1 : ContentBlock := ⟨"Block 1"⟩

/-- Second block of the test server. -/
def block2 : ContentBlock := ⟨"Block 2"⟩

/-- Third block of the test server. -/
def block3 : ContentBlock := ⟨"Block 3"⟩

/-- Client configuration of the tests. -/
def testConfig : Config := ⟨"https://auth.example", "testClientID", "testClientSecret"⟩

/-- An empty cache with a default time-to-live of five minutes. -/
def emptyCache : Cache := ⟨300 * second, []⟩

/-- The cache of `TestSalesforceClient_FetchContentBlocks`: token and instance
URL stored at instant 0 with the default time-to-live. -/
def seededCache : Cache :=
  (emptyCache.set 0 cacheKeyAccessTokenKey "testAccessToken" 0).set 0
    cacheKeyRestInstanceURLKey "https://rest.example" 0

/-- A token endpoint answering `status` with a well-formed body: a token that
lives `expiresIn` seconds. -/
def tokenServer (status : Int) (expiresIn : Int) : String → TokenRequest → HttpResult TokenResponse :=
  fun _ _ => HttpResult.response status (some ⟨"newToken", expiresIn, "https://rest.example"⟩)

/-- The server of the test "Success - Multiple Pages": three records in pages
of two. -/
def multiPageEnv : Env :=
  { newRequestErr := fun _ => none
    decodeErr := "EOF"
    authDo := tokenServer 200 3600
    pageDo := fun _ _ _ req =>
      if req.page = 1 then HttpResult.response 200 (some ⟨3, 1, 2, [block1, block2]⟩)
      else if req.page = 2 then HttpResult.response 200 (some ⟨3, 2, 2, [block3]⟩)
      else HttpResult.response 200 none }

/-- The server of the test "Success - Single Page" that stops answering after
its first response: two records in one page of ten, then status 500. -/
def flakySinglePageEnv : Env :=
  { newRequestErr := fun _ => none
    decodeErr := "EOF"
    authDo := tokenServer 200 3600
    pageDo := fun k _ _ _ =>
      if k = 0 then HttpResult.response 200 (some ⟨2, 1, 10, [block1, block2]⟩)
      else HttpResult.response 500 none }

/-- The server of the test "Success - Single Page". -/
def singlePageEnv : Env :=
  { newRequestErr := fun _ => none
    decodeErr := "EOF"
    authDo := tokenServer 200 3600
    pageDo := fun _ _ _ _ => HttpResult.response 200 (some ⟨2, 1, 10, [block1, block2]⟩) }

/-- A token endpoint environment: only the token request matters. -/
def tokenEnv (status : Int) (expiresIn : Int) : Env :=
  { newRequestErr := fun _ => none
    decodeErr := "EOF"
    authDo := tokenServer status expiresIn
    pageDo := fun _ _ _ _ => HttpResult.response 500 none }

/-- The request of the test "Success - Multiple Pages". -/
def pagedRequest : ContentBlocksRequest :=
  { ContentBlocksRequest.zero with page := 1, pageSize := 2 }

/-- The server of the test "Error - Fetching First Page": always status 500. -/
def failingEnv : Env :=
  { newRequestErr := fun _ => none
    decodeErr := "EOF"
    authDo := tokenServer 200 3600
    pageDo := fun _ _ _ _ => HttpResult.response 500 none }

/-- The request of the test "Success - Single Page". -/
def singlePageRequest : ContentBlocksRequest :=
  { ContentBlocksRequest.zero with page := 1, pageSize := 10 }

/-- A server with one page of ten whose content changes between two requests:
it answers the first page request with Block 1 and Block 2, every later one
with Block 3. -/
def changingSinglePageEnv : Env :=
  { newRequestErr := fun _ => none
    decodeErr := "EOF"
    authDo := tokenServer 200 3600
    pageDo := fun k _ _ _ =>
      if k = 0 then HttpResult.response 200 (some ⟨2, 1, 10, [block1, block2]⟩)
      else HttpResult.response 200 (some ⟨2, 1, 10, [block3]⟩) }

/-! ## The scheduler (`internal/scheduler/scheduler.go`) -/

/-- The interface `domain.Fetcher`: the results (blocks, error) of
`FetchContentBlocks` on a request, when the call returns. -/
abbrev Fetcher : Type := ContentBlocksRequest → Outcome (List ContentBlock × Option String)

/-- The interface `domain.Uploader`: the error of `UploadContentBlocks` on a
slice of blocks, when the call returns. -/
abbrev Uploader : Type := List ContentBlock → Outcome (Option String)

/-- Calls of the scheduler on its two collaborators, in the order they happen. -/
inductive Call where
  | fetch (request : ContentBlocksRequest) : Call
  | upload (contentBlocks : List ContentBlock) : Call
  deriving DecidableEq, Repr

/-- The requests of the fetcher calls among a list of calls. -/
def fetchCalls : List Call → List ContentBlocksRequest
  | [] => []
  | Call.fetch request :: t => request :: fetchCalls t
  | _ :: t => fetchCalls t

/-- The slices of the uploader calls among a list of calls. -/
def uploadCalls : List Call → List (List ContentBlock)
  | [] => []
  | Call.upload contentBlocks :: t => contentBlocks :: uploadCalls t
  | _ :: t => uploadCalls t

/-- The method `Scheduler.fetchAndSyncContentBlocks` (lines 50-63): its error
result, when it returns, and the calls it made.  A collaborator that panics
takes the method down with it. -/
def fetchAndSyncContentBlocks (fetcher : Fetcher) (uploader : Uploader) :
    Outcome (Option String) × List Call :=
  match fetcher ContentBlocksRequest.zero with
  | Outcome.returned (_, some err) =>
    (Outcome.returned (some ("failed to fetch content blocks: " ++ err)),
      [Call.fetch ContentBlocksRequest.zero])
  | Outcome.returned (contentBlocks, none) =>
    match uploader contentBlocks with
    | Outcome.returned (some err) =>
      (Outcome.returned (some ("failed to upload content blocks: " ++ err)),
        [Call.fetch ContentBlocksRequest.zero, Call.upload contentBlocks])
    | Outcome.returned none =>
      (Outcome.returned none,
        [Call.fetch ContentBlocksRequest.zero, Call.upload contentBlocks])
    | Outcome.panicked =>
      (Outcome.panicked, [Call.fetch ContentBlocksRequest.zero, Call.upload contentBlocks])
    | Outcome.implementationDependent =>
      (Outcome.implementationDependent,
        [Call.fetch ContentBlocksRequest.zero, Call.upload contentBlocks])
  | Outcome.panicked => (Outcome.panicked, [Call.fetch ContentBlocksRequest.zero])
  | Outcome.implementationDependent =>
    (Outcome.implementationDependent, [Call.fetch ContentBlocksRequest.zero])

/-- The uploader of `internal/uploader/local`: not implemented, it always
fails. -/
def localUploader : Uploader := fun _ => Outcome.returned (some "unimplemented")

/-- The Salesforce client of the test "Success - Multiple Pages" as a fetcher,
its goroutines run one after the other. -/
def multiPageFetcher : Fetcher :=
  fun request =>
    (FetchContentBlocks multiPageEnv testConfig 1 [0, 0, 0, 1, 1, 1] seededCache request).1

/-! ## Concurrent callers of `fetchAccessToken`

The cache of go-cache is safe for concurrent use and `fetchAccessToken` takes
no lock of its own: a caller first looks into the cache and, on a miss, sends
the token request and stores the answer.  Other callers may run between the
two. -/

/-- The part of `fetchAccessToken` after a cache miss (lines 119-171): the
token request and, on success, the two `cache.Set`, on the cache as it is
then. -/
def refreshToken (env : Env) (cfg : Config) (now : Int) (cache : Cache) :
    (TokenResponse × Option String) × Cache × List Event :=
  let authURL := cfg.authURL ++ "/v2/token"
  let request : TokenRequest :=
    { grantType := "client_credentials", clientID := cfg.clientID,
      clientSecret := cfg.clientSecret }
  match env.newRequestErr authURL with
  | some msg =>
    ((TokenResponse.zero, some ("failed to create HTTP request: " ++ msg)), cache, [])
  | none =>
    let sent := [Event.authRequest authURL request]
    match env.authDo authURL request with
    | HttpResult.transportError msg =>
      ((TokenResponse.zero, some ("failed to perform HTTP request: " ++ msg)), cache, sent)
    | HttpResult.response status body =>
      if status ≠ 200 then
        if status = 401 then ((TokenResponse.zero, some "unauthorized"), cache, sent)
        else
          ((TokenResponse.zero,
            some ("failed to fetch access token, status code: " ++ toString status)),
           cache, sent)
      else
        match body with
        | none =>
          ((TokenResponse.zero, some ("failed to decode response body: " ++ env.decodeErr)),
           cache, sent)
        | some tokenResponse =>
          let expiration := wrap64 (tokenResponse.expiresIn * second)
          let safeExpiration := wrap64 (expiration - 2 * minute)
          if 0 < safeExpiration then
            let cache1 := cache.set now cacheKeyAccessTokenKey tokenResponse.accessToken
              expiration
            let cache2 := cache1.set now cacheKeyRestInstanceURLKey
              tokenResponse.restInstanceURL expiration
            ((tokenResponse, none), cache2,
              sent ++ [Event.cacheSet cacheKeyAccessTokenKey tokenResponse.accessToken
                        expiration,
                      Event.cacheSet cacheKeyRestInstanceURLKey
                        tokenResponse.restInstanceURL expiration])
          else ((tokenResponse, none), cache, sent)

/-- The environment of the token request number `k` of the concurrent
callers: `auth k` answers the token request that is sent after `k` earlier
ones, so that the endpoint may answer every request differently. -/
def envAt (env : Env) (auth : Nat → String → TokenRequest → HttpResult TokenResponse)
    (k : Nat) : Env :=
  { env with authDo := auth k }

/-- A caller of `fetchAccessToken`: the number of steps it has taken, whether
its look into the cache was a miss, the number of the token request it sent
(once it has sent one), and the Go results it returns. -/
structure Caller where
  pc : Nat
  missed : Bool
  sent : Nat
  result : TokenResponse × Option String
  deriving DecidableEq, Repr

/-- The client shared by the callers: its cache, the events so far, and the
callers themselves. -/
structure Callers where
  cache : Cache
  trace : List Event
  callers : List Caller
  deriving DecidableEq, Repr

/-- The caller at position `i` takes its next step, if it has one: first the
look into the cache (`getCachedToken`), then, after a miss, the refresh, whose
token request is answered by `auth k` when `k` token requests were sent
before. -/
def stepCaller (env : Env) (auth : Nat → String → TokenRequest → HttpResult TokenResponse)
    (cfg : Config) (now : Int) (s : Callers) (i : Nat) : Callers :=
  match s.callers[i]? with
  | none => s
  | some c =>
    match c.pc with
    | 0 =>
      let cached := getCachedToken s.cache now
      if cached.2 then
        { s with callers := s.callers.set i (Caller.mk 2 false c.sent (cached.1, none)) }
      else { s with callers := s.callers.set i (Caller.mk 1 true c.sent c.result) }
    | 1 =>
      let r := refreshToken (envAt env auth (authRequests s.trace)) cfg now s.cache
      { cache := r.2.1, trace := s.trace ++ r.2.2,
        callers := s.callers.set i (Caller.mk 2 c.missed (authRequests s.trace) r.1) }
    | _ => s

/-- The steps of a schedule of callers, in order. -/
def runCallers (env : Env) (auth : Nat → String → TokenRequest → HttpResult TokenResponse)
    (cfg : Config) (now : Int) (schedule : List Nat) (s : Callers) : Callers :=
  schedule.foldl (stepCaller env auth cfg now) s

/-- Every caller that has not returned yet runs to its end. -/
def waitCallers (env : Env) (auth : Nat → String → TokenRequest → HttpResult TokenResponse)
    (cfg : Config) (now : Int) (s : Callers) : Callers :=
  (List.range s.callers.length).foldl
    (fun s i => stepCaller env auth cfg now (stepCaller env auth cfg now s i) i) s

/-- A caller that has not started. -/
def Caller.start : Caller :=
  { pc := 0, missed := false, sent := 0, result := (TokenResponse.zero, none) }

/-- The calls of `n` concurrent callers of `fetchAccessToken` on one client, at
instant `now`, their steps taken in the order of `schedule`. -/
def concurrentFetch (env : Env)
    (auth : Nat → String → TokenRequest → HttpResult TokenResponse) (cfg : Config)
    (now : Int) (schedule : List Nat) (cache : Cache) (n : Nat) : Callers :=
  waitCallers env auth cfg now
    (runCallers env auth cfg now schedule
      { cache := cache, trace := [], callers := List.replicate n Caller.start })

/-- What every step of the callers keeps.  The token requests sent are those of
the callers that missed and have returned; a caller about to refresh has
missed; a caller that missed and has returned holds the results of the token
request whose number it recorded; a caller that did not miss holds no error;
two callers never record the same token request. -/
def callersInv (env : Env) (auth : Nat → String → TokenRequest → HttpResult TokenResponse)
    (cfg : Config) (now : Int) (cache0 : Cache) (s : Callers) : Prop :=
  authRequests s.trace = s.callers.countP (fun c => decide (2 ≤ c.pc) && c.missed) ∧
    (∀ c ∈ s.callers, (c.pc = 1 → c.missed = true) ∧
      (2 ≤ c.pc → c.missed = true →
        c.sent < authRequests s.trace ∧
          c.result = (refreshToken (envAt env auth c.sent) cfg now cache0).1) ∧
      (c.missed = false → c.result.2 = none)) ∧
    (∀ (i j : Nat) (ci cj : Caller), i ≠ j → s.callers[i]? = some ci → s.callers[j]? = some cj →
      2 ≤ ci.pc → ci.missed = true → 2 ≤ cj.pc → cj.missed = true → ci.sent ≠ cj.sent)

/-- A token endpoint that answers its first request with one token and every
later request with another. -/
def twoTokenServer : Nat → String → TokenRequest → HttpResult TokenResponse :=
  fun k _ _ =>
    if k = 0 then HttpResult.response 200 (some ⟨"firstToken", 3600, "https://rest.example"⟩)
    else HttpResult.response 200 (some ⟨"secondToken", 3600, "https://rest.example"⟩)

/-! ## The page count is exact up to `2 ^ 53` -/

theorem ilog2Aux_spec (fuel : Nat) : ∀ n : Nat, 0 < n → n ≤ fuel →
    2 ^ ilog2Aux fuel n ≤ n ∧ n < 2 ^ (ilog2Aux fuel n + 1) := by
  induction fuel with
  | zero => intro n h1 h2; omega
  | succ f ih =>
    intro n h1 h2
    unfold ilog2Aux
    by_cases h : n < 2
    · have : n = 1 := by omega
      subst this; simp
    · rw [if_neg h]
      have hpos : 0 < n / 2 := Nat.div_pos (by omega) (by decide)
      have hle : n / 2 ≤ f := by omega
      obtain ⟨a, b⟩ := ih (n / 2) hpos hle
      constructor
      · rw [pow_succ]; omega
      · rw [pow_succ]; omega

theorem ilog2_le (n : Nat) (h : 0 < n) : 2 ^ ilog2 n ≤ n :=
  (ilog2Aux_spec n n h (le_refl n)).1

theorem lt_ilog2 (n : Nat) (h : 0 < n) : n < 2 ^ (ilog2 n + 1) :=
  (ilog2Aux_spec n n h (le_refl n)).2

theorem ilog2_lt_of_lt (n k : Nat) (h : 0 < n) (hk : n < 2 ^ k) : ilog2 n < k := by
  by_contra hc
  have h1 : 2 ^ k ≤ 2 ^ ilog2 n := Nat.pow_le_pow_right (by decide) (by omega)
  have h2 := ilog2_le n h
  omega

theorem le_ilog2_of_le (n k : Nat) (hk : 2 ^ k ≤ n) : k ≤ ilog2 n := by
  by_contra hc
  have hn : 0 < n := lt_of_lt_of_le (Nat.two_pow_pos k) hk
  have h1 : 2 ^ (ilog2 n + 1) ≤ 2 ^ k := Nat.pow_le_pow_right (by decide) (by omega)
  have h2 := lt_ilog2 n hn
  omega


/-- Ceiling division on naturals. -/
theorem ceilDiv_eq (x y c : Nat) (h1 : c * y < x + y) (h2 : x ≤ c * y) :
    (x + y - 1) / y = c := by
  apply Nat.div_eq_of_lt_le
  · omega
  · rw [Nat.succ_mul]; omega

theorem round_core (a b E m r : Nat) (hb : 0 < b)
    (hdiv : a * E = m * b + r) (hr : r < b) (hm : 2 ^ 52 ≤ m)
    (ha0 : 0 < a) (ha : a ≤ 2 ^ 53) :
    ((if b < 2 * r ∨ (2 * r = b ∧ m % 2 = 1) then m + 1 else m) + E - 1) / E
      = (a + b - 1) / b := by
  norm_num at hm ha
  -- the exact ceiling is `K + 1`
  obtain ⟨K, hK⟩ : ∃ K, (a + b - 1) / b = K + 1 := by
    have : 0 < (a + b - 1) / b := Nat.div_pos (by omega) hb
    exact ⟨(a + b - 1) / b - 1, by omega⟩
  have hdm := Nat.div_add_mod (a + b - 1) b
  have hml := Nat.mod_lt (a + b - 1) hb
  rw [hK] at hdm
  have e1 : b * (K + 1) = K * b + b := by ring
  have e2 : (K + 1) * b = K * b + b := by ring
  have e3 : (K * b + 1) * E = K * E * b + E := by ring
  have e5 : (K + 1) * E = K * E + E := by ring
  have hlo : K * b < a := by omega
  have hhi : a ≤ (K + 1) * b := by omega
  rw [hK]
  have hmle : m ≤ (K + 1) * E := by
    have h1 : m * b ≤ ((K + 1) * E) * b := by
      calc m * b ≤ a * E := by omega
        _ ≤ ((K + 1) * b) * E := Nat.mul_le_mul_right E hhi
        _ = ((K + 1) * E) * b := by ring
    exact Nat.le_of_mul_le_mul_right h1 hb
  have hstep : K * E * b + E ≤ m * b + r := by
    rw [← hdiv, ← e3]; exact Nat.mul_le_mul_right E hlo
  have hmge : K * E ≤ m := by
    by_contra hc
    have h1 : m + 1 ≤ K * E := by omega
    have h2 : (m + 1) * b ≤ (K * E) * b := Nat.mul_le_mul_right b h1
    have e4 : (m + 1) * b = m * b + b := by ring
    omega
  apply ceilDiv_eq
  · -- (K + 1) * E < m' + E
    by_cases hc : b < 2 * r ∨ (2 * r = b ∧ m % 2 = 1)
    · rw [if_pos hc]; omega
    · rw [if_neg hc]
      have hc1 : 2 * r ≤ b := by
        by_contra h; exact hc (Or.inl (by omega))
      by_contra hlt
      have hmeq : m = K * E := by omega
      have hrE : E ≤ r := by
        rw [hmeq] at hstep; omega
      have hb2 : 2 * E ≤ b := by omega
      have h3 : K * (2 * E) ≤ K * b := Nat.mul_le_mul_left K hb2
      have e6 : K * (2 * E) = 2 * (K * E) := by ring
      omega
  · -- m' ≤ (K + 1) * E
    by_cases hc : b < 2 * r ∨ (2 * r = b ∧ m % 2 = 1)
    · rw [if_pos hc]
      by_contra hlt
      have hmeq : m = (K + 1) * E := by omega
      have hr0 : r = 0 := by
        have h5 : a * E ≤ ((K + 1) * b) * E := Nat.mul_le_mul_right E hhi
        have h6 : ((K + 1) * b) * E = m * b := by rw [hmeq]; ring
        omega
      rcases hc with h | ⟨h, _⟩ <;> omega
    · rw [if_neg hc]; exact hmle


/-- When the quotient is below `2 ^ 53` only the numerator is scaled. -/
theorem roundQuot_small (N D : Nat) (hN : 0 < N) (hD : 0 < D)
    (h : ilog2 N ≤ ilog2 D + 52) :
    ∃ k : Nat, D * 2 ^ 52 ≤ N * 2 ^ k ∧
      roundQuot N D =
        ((if D < 2 * (N * 2 ^ k % D) ∨ (2 * (N * 2 ^ k % D) = D ∧ (N * 2 ^ k / D) % 2 = 1)
            then N * 2 ^ k / D + 1 else N * 2 ^ k / D), -(k : Int)) := by
  have hsD : ilog2 N - (ilog2 D + 52) = 0 := by omega
  have hpow : 2 ^ (ilog2 D + 52) ≤ N * 2 ^ (ilog2 D + 52 - ilog2 N) := by
    have h1 := ilog2_le N hN
    calc 2 ^ (ilog2 D + 52) = 2 ^ ilog2 N * 2 ^ (ilog2 D + 52 - ilog2 N) := by
          rw [← pow_add]; congr 1; omega
      _ ≤ N * 2 ^ (ilog2 D + 52 - ilog2 N) := Nat.mul_le_mul_right _ h1
  have hDlt : D * 2 ^ 52 < 2 * 2 ^ (ilog2 D + 52) := by
    have h2 := lt_ilog2 D hD
    have : D * 2 ^ 52 < 2 ^ (ilog2 D + 1) * 2 ^ 52 :=
      Nat.mul_lt_mul_of_pos_right h2 (Nat.two_pow_pos 52)
    calc D * 2 ^ 52 < 2 ^ (ilog2 D + 1) * 2 ^ 52 := this
      _ = 2 * 2 ^ (ilog2 D + 52) := by ring
  have e1 : N * 2 ^ (ilog2 D + 52 - ilog2 N + 1)
      = N * 2 ^ (ilog2 D + 52 - ilog2 N) * 2 := by ring
  by_cases hx : N * 2 ^ (ilog2 D + 52 - ilog2 N) < D * 2 ^ 52
  · refine ⟨ilog2 D + 52 - ilog2 N + 1, by omega, ?_⟩
    unfold roundQuot
    simp only [hsD, pow_zero, mul_one, hx, if_true, pow_one]
    rw [e1]
    simp
    omega
  · refine ⟨ilog2 D + 52 - ilog2 N, by omega, ?_⟩
    unfold roundQuot
    simp only [hsD, pow_zero, mul_one, hx, if_false]
    simp


/-- Ceiling followed by integer conversion, on a positive float with a
non-positive exponent. -/
theorem toInt_ceil_pos (m k c : Nat) (hc : (m + 2 ^ k - 1) / 2 ^ k = c) (hlt : c < 2 ^ 63) :
    toInt (ceil (F64.fin false m (-(k : Int)))) = some (c : Int) := by
  have hr : -(2 : Int) ^ 63 ≤ (c : Int) ∧ (c : Int) < (2 : Int) ^ 63 := by
    constructor
    · have : (0 : Int) ≤ (c : Int) := Int.ofNat_nonneg c
      have h2 : -(2 : Int) ^ 63 ≤ 0 := by norm_num
      omega
    · exact_mod_cast hlt
  rcases Nat.eq_zero_or_pos k with hk0 | hk0
  · subst hk0
    simp only [pow_zero, Nat.add_sub_cancel, Nat.div_one] at hc
    subst hc
    simp only [ceil, toInt, Nat.cast_zero, neg_zero, le_refl, if_true, Int.toNat_zero, pow_zero,
      mul_one, Nat.div_one, Bool.false_eq_true, if_false]
    rw [if_pos hr]
  · have hneg : ¬ (0 : Int) ≤ -(k : Int) := by omega
    have hk : (- -(k : Int)).toNat = k := by simp
    simp only [ceil, hneg, if_false, Bool.false_eq_true, hk, hc, toInt, Int.toNat_zero, pow_zero,
      mul_one, Nat.div_one, neg_zero]
    rw [if_pos hr]

/-- For a numerator of at most `2 ^ 53` the rounded quotient has the exact ceiling. -/
theorem roundQuot_ceil (a b : Nat) (ha0 : 0 < a) (ha : a ≤ 2 ^ 53) (hb : 0 < b) :
    toInt (ceil (F64.fin false (roundQuot a b).1 (roundQuot a b).2))
      = some (((a + b - 1) / b : Nat) : Int) := by
  have hres : (a + b - 1) / b ≤ 2 ^ 53 := by
    apply le_trans _ ha
    apply Nat.div_le_of_le_mul
    have h1 : a - 1 ≤ (a - 1) * b := Nat.le_mul_of_pos_right _ hb
    have h2 : (a - 1) * b + b = b * a := by
      rw [Nat.sub_one_mul, Nat.mul_comm b a]
      exact Nat.sub_add_cancel (Nat.le_mul_of_pos_left b ha0)
    omega
  by_cases h : ilog2 a ≤ ilog2 b + 52
  · obtain ⟨k, hk, heq⟩ := roundQuot_small a b ha0 hb h
    have hm : 2 ^ 52 ≤ a * 2 ^ k / b := by
      rw [Nat.le_div_iff_mul_le hb, Nat.mul_comm]; exact hk
    have hdiv : a * 2 ^ k = (a * 2 ^ k / b) * b + a * 2 ^ k % b := by
      rw [Nat.mul_comm (a * 2 ^ k / b) b]; exact (Nat.div_add_mod _ _).symm
    have hcore := round_core a b (2 ^ k) (a * 2 ^ k / b) (a * 2 ^ k % b) hb hdiv
      (Nat.mod_lt _ hb) hm ha0 ha
    rw [heq]
    exact toInt_ceil_pos _ k _ hcore (lt_of_le_of_lt hres (by norm_num))
  · have h53 : ilog2 a < 54 := ilog2_lt_of_lt a 54 ha0 (by norm_num at ha ⊢; omega)
    have ha53 : a = 2 ^ 53 := by
      have h1 := ilog2_le a ha0
      have h2 : ilog2 a = 53 := by omega
      rw [h2] at h1; omega
    have hb1 : b = 1 := by
      have h1 := lt_ilog2 b hb
      have h2 : ilog2 b = 0 := by omega
      rw [h2] at h1; omega
    subst ha53; subst hb1
    decide


theorem ilog2_one : ilog2 1 = 0 := by decide

/-- Integers up to `2 ^ 53` convert to float64 without rounding. -/
theorem float64OfInt_exact (a : Nat) (ha0 : 0 < a) (ha : a ≤ 2 ^ 53) :
    float64OfInt (a : Int) = (a : Int) := by
  have hne : ¬ ((a : Int) = 0) := by omega
  have hnn : ¬ ((a : Int) < 0) := by omega
  unfold float64OfInt
  simp only [hne, if_false, hnn, Int.natAbs_ofNat]
  rcases Nat.lt_or_ge a (2 ^ 53) with hlt | hge
  · have hl : ilog2 a ≤ ilog2 1 + 52 := by
      have := ilog2_lt_of_lt a 53 ha0 hlt
      rw [ilog2_one]; omega
    obtain ⟨k, -, heq⟩ := roundQuot_small a 1 ha0 (by decide) hl
    have hc : ¬ (1 < 2 * (a * 2 ^ k % 1) ∨
        (2 * (a * 2 ^ k % 1) = 1 ∧ a * 2 ^ k / 1 % 2 = 1)) := by
      rw [Nat.mod_one]; omega
    rw [if_neg hc, Nat.div_one] at heq
    rw [heq]
    have h2 : (- -(k : Int)).toNat = k := by simp
    have h1 : (-(k : Int)).toNat = 0 := by
      apply Int.toNat_eq_zero.mpr; omega
    simp only [h1, h2, pow_zero, mul_one]
    rw [Nat.mul_div_cancel _ (Nat.two_pow_pos k)]
  · have : a = 2 ^ 53 := by omega
    subst this
    decide

/-- Integers from `2 ^ 53` on convert to a float64 of at least `2 ^ 53`. -/
theorem float64OfInt_large (a : Nat) (ha : 2 ^ 53 ≤ a) :
    (2 : Int) ^ 53 ≤ float64OfInt (a : Int) := by
  have ha0 : 0 < a := lt_of_lt_of_le (Nat.two_pow_pos 53) ha
  have hne : ¬ ((a : Int) = 0) := by omega
  have hnn : ¬ ((a : Int) < 0) := by omega
  have hl : 53 ≤ ilog2 a := le_ilog2_of_le a 53 ha
  have hle := ilog2_le a ha0
  obtain ⟨s, hs⟩ : ∃ s, ilog2 a = s + 53 := ⟨ilog2 a - 53, by omega⟩
  have hsN : ilog2 1 + 52 - ilog2 a = 0 := by rw [ilog2_one]; omega
  have hsD : ilog2 a - (ilog2 1 + 52) = s + 1 := by rw [ilog2_one]; omega
  have hpow : 2 ^ (s + 1) * 2 ^ 52 = 2 ^ ilog2 a := by
    rw [hs, ← pow_add]
  have hx : ¬ (a < 2 ^ (s + 1) * 2 ^ 52) := by rw [hpow]; omega
  have hm : 2 ^ 52 ≤ a / 2 ^ (s + 1) := by
    rw [Nat.le_div_iff_mul_le (Nat.two_pow_pos _), Nat.mul_comm, hpow]; exact hle
  unfold float64OfInt
  simp only [hne, if_false, hnn, Int.natAbs_ofNat]
  unfold roundQuot
  simp only [hsN, hsD, pow_zero, mul_one, one_mul, hx, if_false]
  have hexp : ((s + 1 : Nat) : Int) - ((0 : Nat) : Int) - ((0 : Nat) : Int) = ((s + 1 : Nat) : Int) := by
    simp
  rw [hexp]
  have h1 : ((s + 1 : Nat) : Int).toNat = s + 1 := Int.toNat_ofNat _
  have h2 : (-((s + 1 : Nat) : Int)).toNat = 0 := by
    apply Int.toNat_eq_zero.mpr; omega
  rw [h1, h2, pow_zero, Nat.div_one]
  have h3 : 2 ^ 52 * 2 ^ (s + 1) ≤
      (if 2 ^ (s + 1) < 2 * (a % 2 ^ (s + 1)) ∨
            2 * (a % 2 ^ (s + 1)) = 2 ^ (s + 1) ∧ a / 2 ^ (s + 1) % 2 = 1 then
          a / 2 ^ (s + 1) + 1
        else a / 2 ^ (s + 1)) * 2 ^ (s + 1) := by
    apply Nat.mul_le_mul_right
    split_ifs <;> omega
  have h4 : 2 ^ 53 ≤ 2 ^ 52 * 2 ^ (s + 1) := by
    rw [← pow_add]; exact Nat.pow_le_pow_right (by decide) (by omega)
  have h5 := le_trans h4 h3
  exact_mod_cast h5


theorem fdiv_pos (a b : Nat) (ha : 0 < a) (hb : 0 < b) :
    fdiv (a : Int) (b : Int) = F64.fin false (roundQuot a b).1 (roundQuot a b).2 := by
  have h1 : ¬ ((a : Int) = 0) := by omega
  have h2 : ¬ ((b : Int) = 0) := by omega
  have h3 : ¬ ((a : Int) < 0) := by omega
  have h4 : ¬ ((b : Int) < 0) := by omega
  simp [fdiv, h1, h2, h3, h4]

/-- The page count on naturals: exact ceiling whenever `count ≤ 2 ^ 53`. -/
theorem totalPages_nat (a p : Nat) (ha0 : 0 < a) (ha : a ≤ 2 ^ 53) (hp0 : 0 < p) :
    ∃ b : Nat, (p ≤ 2 ^ 53 → b = p) ∧ (2 ^ 53 < p → 2 ^ 53 ≤ b) ∧
      totalPages (a : Int) (p : Int) = some (((a + b - 1) / b : Nat) : Int) := by
  unfold totalPages
  rw [float64OfInt_exact a ha0 ha]
  rcases Nat.lt_or_ge (2 ^ 53) p with hlt | hge
  · have hl := float64OfInt_large p (le_of_lt hlt)
    obtain ⟨b, hb⟩ : ∃ b : Nat, float64OfInt (p : Int) = (b : Int) :=
      ⟨(float64OfInt (p : Int)).toNat, (Int.toNat_of_nonneg (by
        have : (0 : Int) ≤ 2 ^ 53 := by norm_num
        omega)).symm⟩
    rw [hb] at hl ⊢
    have hb53 : 2 ^ 53 ≤ b := by exact_mod_cast hl
    have hb0 : 0 < b := lt_of_lt_of_le (Nat.two_pow_pos 53) hb53
    refine ⟨b, fun h => by omega, fun _ => hb53, ?_⟩
    rw [fdiv_pos a b ha0 hb0]
    exact roundQuot_ceil a b ha0 ha hb0
  · refine ⟨p, fun _ => rfl, fun h => by omega, ?_⟩
    rw [float64OfInt_exact p hp0 hge, fdiv_pos a p ha0 hp0]
    exact roundQuot_ceil a p ha0 ha hp0

theorem totalPages_exact_aux (count pageSize : Int) (hc0 : 0 < count)
    (hc : count ≤ 2 ^ 53) (hp0 : 0 < pageSize) :
    ∃ n : Int, totalPages count pageSize = some n ∧ count ≤ n * pageSize ∧
      ∀ k : Int, count ≤ k * pageSize → n ≤ k := by
  obtain ⟨a, rfl⟩ := Int.eq_ofNat_of_zero_le (le_of_lt hc0)
  obtain ⟨p, rfl⟩ := Int.eq_ofNat_of_zero_le (le_of_lt hp0)
  have ha0 : 0 < a := by exact_mod_cast hc0
  have hp0' : 0 < p := by exact_mod_cast hp0
  have ha : a ≤ 2 ^ 53 := by exact_mod_cast hc
  obtain ⟨b, hb1, hb2, htp⟩ := totalPages_nat a p ha0 ha hp0'
  refine ⟨_, htp, ?_, ?_⟩
  · rcases Nat.lt_or_ge (2 ^ 53) p with hlt | hge
    · have hb := hb2 hlt
      have h1 : (a + b - 1) / b = 1 := ceilDiv_eq a b 1 (by omega) (by omega)
      rw [h1]; push_cast; omega
    · have hb := hb1 hge
      subst hb
      have hdm := Nat.div_add_mod (a + b - 1) b
      have hml := Nat.mod_lt (a + b - 1) hp0'
      have : a ≤ (a + b - 1) / b * b := by
        rw [Nat.mul_comm]; omega
      exact_mod_cast this
  · intro k hk
    rcases Nat.lt_or_ge (2 ^ 53) p with hlt | hge
    · have hb := hb2 hlt
      have h1 : (a + b - 1) / b = 1 := ceilDiv_eq a b 1 (by omega) (by omega)
      rw [h1]
      by_contra hcon
      have hk0 : k ≤ 0 := by push_cast at hcon; omega
      have : k * (p : Int) ≤ 0 := Int.mul_nonpos_of_nonpos_of_nonneg hk0 (by omega)
      omega
    · have hb := hb1 hge
      subst hb
      by_contra hcon
      have hdm := Nat.div_add_mod (a + b - 1) b
      have hk1 : k + 1 ≤ (((a + b - 1) / b : Nat) : Int) := by omega
      have h2 : (k + 1) * (b : Int) ≤ (((a + b - 1) / b : Nat) : Int) * (b : Int) :=
        Int.mul_le_mul_of_nonneg_right hk1 (by omega)
      have h3 : (a + b - 1) / b * b ≤ a + b - 1 := Nat.div_mul_le_self _ _
      have h4 : (((a + b - 1) / b : Nat) : Int) * (b : Int) ≤ (a : Int) + (b : Int) - 1 := by
        have : (((a + b - 1) / b * b : Nat) : Int) ≤ ((a + b - 1 : Nat) : Int) := by
          exact_mod_cast h3
        push_cast at this
        omega
      have h5 : (k + 1) * (b : Int) = k * (b : Int) + (b : Int) := by ring
      omega


/-- The scaled operands of `roundQuot` hold a quotient with exactly 53 bits. -/
theorem roundQuot_scale (N D : Nat) (hN : 0 < N) (hD : 0 < D) :
    ∃ a b : Nat, D * 2 ^ b * 2 ^ 52 ≤ N * 2 ^ a ∧ N * 2 ^ a < D * 2 ^ b * 2 ^ 53 ∧
      roundQuot N D =
        ((if D * 2 ^ b < 2 * (N * 2 ^ a % (D * 2 ^ b)) ∨
              (2 * (N * 2 ^ a % (D * 2 ^ b)) = D * 2 ^ b ∧ (N * 2 ^ a / (D * 2 ^ b)) % 2 = 1)
            then N * 2 ^ a / (D * 2 ^ b) + 1 else N * 2 ^ a / (D * 2 ^ b)),
          (b : Int) - (a : Int)) := by
  have hN1 := ilog2_le N hN
  have hN2 := lt_ilog2 N hN
  have hD1 := ilog2_le D hD
  have hD2 := lt_ilog2 D hD
  -- a common exponent `L` for the two scaled operands
  obtain ⟨L, hL1, hL2⟩ : ∃ L, ilog2 N + (ilog2 D + 52 - ilog2 N) = L + 52 ∧
      ilog2 D + (ilog2 N - (ilog2 D + 52)) = L := by
    refine ⟨ilog2 D + (ilog2 N - (ilog2 D + 52)), by omega, rfl⟩
  have hn0lo : 2 ^ (L + 52) ≤ N * 2 ^ (ilog2 D + 52 - ilog2 N) := by
    rw [← hL1, pow_add]; exact Nat.mul_le_mul_right _ hN1
  have hn0hi : N * 2 ^ (ilog2 D + 52 - ilog2 N) < 2 ^ (L + 53) := by
    have : 2 ^ (L + 53) = 2 ^ (ilog2 N + 1) * 2 ^ (ilog2 D + 52 - ilog2 N) := by
      rw [← pow_add]; congr 1; omega
    rw [this]; exact Nat.mul_lt_mul_of_pos_right hN2 (Nat.two_pow_pos _)
  have hdlo : 2 ^ L ≤ D * 2 ^ (ilog2 N - (ilog2 D + 52)) := by
    rw [← hL2, pow_add]; exact Nat.mul_le_mul_right _ hD1
  have hdhi : D * 2 ^ (ilog2 N - (ilog2 D + 52)) < 2 ^ (L + 1) := by
    have : 2 ^ (L + 1) = 2 ^ (ilog2 D + 1) * 2 ^ (ilog2 N - (ilog2 D + 52)) := by
      rw [← pow_add]; congr 1; omega
    rw [this]; exact Nat.mul_lt_mul_of_pos_right hD2 (Nat.two_pow_pos _)
  have e52 : 2 ^ (L + 52) = 2 ^ L * 2 ^ 52 := pow_add 2 L 52
  have e53 : 2 ^ (L + 53) = 2 ^ L * 2 ^ 53 := pow_add 2 L 53
  have e1 : 2 ^ (L + 1) * 2 ^ 52 = 2 ^ (L + 53) := by rw [← pow_add]
  have e2 : 2 ^ (L + 53) = 2 * 2 ^ (L + 52) := by rw [← pow_succ']
  have e3 : ∀ y : Nat, y * 2 ^ 53 = 2 * (y * 2 ^ 52) := by intro y; ring
  have hd52 : D * 2 ^ (ilog2 N - (ilog2 D + 52)) * 2 ^ 52 < 2 ^ (L + 53) := by
    rw [← e1]; exact Nat.mul_lt_mul_of_pos_right hdhi (Nat.two_pow_pos _)
  have hd53 : 2 ^ (L + 53) ≤ D * 2 ^ (ilog2 N - (ilog2 D + 52)) * 2 ^ 53 := by
    rw [e53]; exact Nat.mul_le_mul_right _ hdlo
  by_cases hx : N * 2 ^ (ilog2 D + 52 - ilog2 N)
      < D * 2 ^ (ilog2 N - (ilog2 D + 52)) * 2 ^ 52
  · have e4 : N * 2 ^ (ilog2 D + 52 - ilog2 N + 1)
        = N * 2 ^ (ilog2 D + 52 - ilog2 N) * 2 := by ring
    refine ⟨ilog2 D + 52 - ilog2 N + 1, ilog2 N - (ilog2 D + 52), ?_, ?_, ?_⟩
    · rw [e4]; omega
    · rw [e4, e3]; omega
    · unfold roundQuot
      simp only [hx, if_true, pow_one]
      rw [e4]
      simp
      omega
  · refine ⟨ilog2 D + 52 - ilog2 N, ilog2 N - (ilog2 D + 52), by omega, by omega, ?_⟩
    unfold roundQuot
    simp only [hx, if_false, pow_zero, mul_one]
    simp

/-- Adequacy of `roundQuot`: for positive `N` and `D` the result `(m, e)` has a
significand of 53 bits (or is the next power of two), `e = b - a` for two
scalings `a`, `b`, and `m * 2 ^ e` is within half a unit in the last place of
`N / D`, stated after multiplying out: `|m * (D * 2^b) - N * 2^a| ≤ D * 2^b / 2`;
a tie is resolved to the even significand. -/
theorem roundQuot_nearest (N D : Nat) (hN : 0 < N) (hD : 0 < D) :
    ∃ a b : Nat, (roundQuot N D).2 = (b : Int) - (a : Int) ∧
      2 ^ 52 ≤ (roundQuot N D).1 ∧ (roundQuot N D).1 ≤ 2 ^ 53 ∧
      2 * ((roundQuot N D).1 * (D * 2 ^ b)) ≤ 2 * (N * 2 ^ a) + D * 2 ^ b ∧
      2 * (N * 2 ^ a) ≤ 2 * ((roundQuot N D).1 * (D * 2 ^ b)) + D * 2 ^ b ∧
      ((2 * ((roundQuot N D).1 * (D * 2 ^ b)) = 2 * (N * 2 ^ a) + D * 2 ^ b ∨
          2 * (N * 2 ^ a) = 2 * ((roundQuot N D).1 * (D * 2 ^ b)) + D * 2 ^ b) →
        (roundQuot N D).1 % 2 = 0) := by
  obtain ⟨a, b, hlo, hhi, heq⟩ := roundQuot_scale N D hN hD
  refine ⟨a, b, by rw [heq], ?_⟩
  rw [heq]
  simp only
  generalize N * 2 ^ a = n at hlo hhi ⊢
  have hdpos : 0 < D * 2 ^ b := Nat.mul_pos hD (Nat.two_pow_pos b)
  generalize D * 2 ^ b = d at hlo hhi hdpos ⊢
  have hm1 : 2 ^ 52 ≤ n / d := by
    rw [Nat.le_div_iff_mul_le hdpos, Nat.mul_comm]; exact hlo
  have hm2 : n / d < 2 ^ 53 := by
    rw [Nat.div_lt_iff_lt_mul hdpos, Nat.mul_comm]; exact hhi
  have hdm := Nat.div_add_mod n d
  have hr := Nat.mod_lt n hdpos
  have ec : n / d * d = d * (n / d) := Nat.mul_comm _ _
  have es : (n / d + 1) * d = d * (n / d) + d := by ring
  by_cases hc : d < 2 * (n % d) ∨ (2 * (n % d) = d ∧ (n / d) % 2 = 1)
  · rw [if_pos hc, es]
    refine ⟨by omega, by omega, by omega, by omega, ?_⟩
    intro _
    rcases hc with h | ⟨h, h2⟩ <;> omega
  · rw [if_neg hc, ec]
    have h1 : 2 * (n % d) ≤ d := by
      by_contra h; exact hc (Or.inl (by omega))
    refine ⟨by omega, by omega, by omega, by omega, ?_⟩
    intro ht
    have h2 : 2 * (n % d) = d := by omega
    by_contra hodd
    exact hc (Or.inr ⟨h2, by omega⟩)

/-- Two known float64 quotients: `1 / 3 = 0x3FD5555555555555` and
`1 / 10 = 0x3FB999999999999A`. -/
theorem roundQuot_known :
    roundQuot 1 3 = (0x15555555555555, -54) ∧ roundQuot 1 10 = (0x1999999999999A, -56) := by
  decide
/-! ## Claims on the page count -/

/-- C1 (amended): for every first-page response with `0 < count ≤ 2 ^ 53` and
`0 < pageSize` (a Go int), the page count computed by `FetchContentBlocks` is
the exact integer ceiling of `count / pageSize`. -/
theorem totalPages_eq_ceil (count pageSize : Int) (hc0 : 0 < count)
    (hc : count ≤ 2 ^ 53) (hp0 : 0 < pageSize) (_hp : pageSize < 2 ^ 63) :
    totalPages count pageSize = some ⌈(count : ℚ) / (pageSize : ℚ)⌉ := by
  obtain ⟨n, hn, hle, hmin⟩ := totalPages_exact_aux count pageSize hc0 hc hp0
  rw [hn]
  congr 1
  symm
  have hpq : (0 : ℚ) < (pageSize : ℚ) := by exact_mod_cast hp0
  rw [Int.ceil_eq_iff]
  constructor
  · rw [lt_div_iff₀ hpq]
    by_contra hcon
    push_neg at hcon
    have h1 : count ≤ (n - 1) * pageSize := by exact_mod_cast hcon
    have := hmin (n - 1) h1
    omega
  · rw [div_le_iff₀ hpq]
    exact_mod_cast hle

/-- Witness of `totalPages_eq_ceil`: three records in pages of two. -/
theorem totalPages_eq_ceil_witness :
    (0 : Int) < 3 ∧ (3 : Int) ≤ 2 ^ 53 ∧ (0 : Int) < 2 ∧ (2 : Int) < 2 ^ 63 ∧
      totalPages 3 2 = some ⌈((3 : Int) : ℚ) / ((2 : Int) : ℚ)⌉ :=
  ⟨by decide, by decide, by decide, by decide,
    totalPages_eq_ceil 3 2 (by decide) (by decide) (by decide) (by decide)⟩

/-- C1 (counterexample): with `count = 2 ^ 53 + 1` and `pageSize = 1` the
conversion to float64 rounds the count down, and the computed page count
`2 ^ 53` is too small to hold the records. -/
theorem totalPages_inexact :
    totalPages 9007199254740993 1 = some 9007199254740992 ∧
      ¬ ((9007199254740993 : Int) ≤ 9007199254740992 * 1) := by
  decide

/-! ## Claims on the token cache -/

theorem getCachedToken_hit (cache : Cache) (now : Int) (a u : String)
    (ha : cache.get now cacheKeyAccessTokenKey = some a)
    (hu : cache.get now cacheKeyRestInstanceURLKey = some u) :
    getCachedToken cache now = (⟨a, 0, u⟩, true) := by
  simp [getCachedToken, ha, hu]

theorem getCachedToken_miss (cache : Cache) (now : Int)
    (h : cache.get now cacheKeyAccessTokenKey = none ∨
      cache.get now cacheKeyRestInstanceURLKey = none) :
    getCachedToken cache now = (TokenResponse.zero, false) := by
  unfold getCachedToken
  rcases h with h | h
  · rw [h]
  · rw [h]
    cases cache.get now cacheKeyAccessTokenKey <;> rfl

/-- C6: when both the access-token entry and the instance-URL entry are found in
the cache, `fetchAccessToken` sends no request, leaves the cache as it is and
returns, without error, the cached token and URL with `ExpiresIn` zero; when
either entry is not found, the lookup reports a miss. -/
theorem fetchAccessToken_cached (env : Env) (cfg : Config) (now : Int) (cache : Cache) :
    (∀ a u : String, cache.get now cacheKeyAccessTokenKey = some a →
        cache.get now cacheKeyRestInstanceURLKey = some u →
        fetchAccessToken env cfg now cache
          = (({ accessToken := a, expiresIn := 0, restInstanceURL := u }, none), cache, [])) ∧
      ((cache.get now cacheKeyAccessTokenKey = none ∨
          cache.get now cacheKeyRestInstanceURLKey = none) →
        getCachedToken cache now = (TokenResponse.zero, false)) := by
  constructor
  · intro a u ha hu
    simp [fetchAccessToken, getCachedToken_hit cache now a u ha hu]
  · exact getCachedToken_miss cache now

/-- Witness of `fetchAccessToken_cached`: the seeded cache of the tests, and
the empty cache. -/
theorem fetchAccessToken_cached_witness :
    fetchAccessToken multiPageEnv testConfig 1 seededCache
        = ((⟨"testAccessToken", 0, "https://rest.example"⟩, none), seededCache, []) ∧
      getCachedToken emptyCache 1 = (TokenResponse.zero, false) :=
  ⟨(fetchAccessToken_cached multiPageEnv testConfig 1 seededCache).1 _ _ (by decide) (by decide),
    (fetchAccessToken_cached multiPageEnv testConfig 1 emptyCache).2 (Or.inl (by decide))⟩

/-- C7 (the code at the failing input): a token with `expires_in = 3600` is
obtained at instant 0; calls made 3480 s and 3600 s later, inside the last two
minutes of its life, still return the cached credential and send no
authentication request; only after 3600 s is the entry gone. -/
theorem fetchAccessToken_no_margin :
    (fetchAccessToken (tokenEnv 200 3600) testConfig 0 emptyCache).1
        = (⟨"newToken", 3600, "https://rest.example"⟩, none) ∧
      fetchAccessToken (tokenEnv 200 3600) testConfig (3480 * second)
          (fetchAccessToken (tokenEnv 200 3600) testConfig 0 emptyCache).2.1
        = ((⟨"newToken", 0, "https://rest.example"⟩, none),
            (fetchAccessToken (tokenEnv 200 3600) testConfig 0 emptyCache).2.1, []) ∧
      fetchAccessToken (tokenEnv 200 3600) testConfig (3600 * second)
          (fetchAccessToken (tokenEnv 200 3600) testConfig 0 emptyCache).2.1
        = ((⟨"newToken", 0, "https://rest.example"⟩, none),
            (fetchAccessToken (tokenEnv 200 3600) testConfig 0 emptyCache).2.1, []) ∧
      authRequests
        (fetchAccessToken (tokenEnv 200 3600) testConfig (3600 * second + 1)
          (fetchAccessToken (tokenEnv 200 3600) testConfig 0 emptyCache).2.1).2.2 = 1 := by
  decide

/-- Unfolding of `fetchAccessToken` on a cache miss answered with status 200
and a well-formed body. -/
theorem fetchAccessToken_ok (env : Env) (cfg : Config) (now : Int) (cache : Cache)
    (tr : TokenResponse)
    (hmiss : (getCachedToken cache now).2 = false)
    (hurl : env.newRequestErr (cfg.authURL ++ "/v2/token") = none)
    (hdo : env.authDo (cfg.authURL ++ "/v2/token")
      ⟨"client_credentials", cfg.clientID, cfg.clientSecret⟩
        = HttpResult.response 200 (some tr)) :
    fetchAccessToken env cfg now cache =
      if 0 < wrap64 (wrap64 (tr.expiresIn * second) - 2 * minute) then
        ((tr, none),
          (cache.set now cacheKeyAccessTokenKey tr.accessToken
            (wrap64 (tr.expiresIn * second))).set now cacheKeyRestInstanceURLKey
              tr.restInstanceURL (wrap64 (tr.expiresIn * second)),
          [Event.authRequest (cfg.authURL ++ "/v2/token")
              ⟨"client_credentials", cfg.clientID, cfg.clientSecret⟩,
            Event.cacheSet cacheKeyAccessTokenKey tr.accessToken
              (wrap64 (tr.expiresIn * second)),
            Event.cacheSet cacheKeyRestInstanceURLKey tr.restInstanceURL
              (wrap64 (tr.expiresIn * second))])
      else
        ((tr, none), cache,
          [Event.authRequest (cfg.authURL ++ "/v2/token")
            ⟨"client_credentials", cfg.clientID, cfg.clientSecret⟩]) := by
  unfold fetchAccessToken
  simp only [hmiss, hurl, hdo]
  simp

/-- No wrap-around for durations that fit 64 bits. -/
theorem wrap64_id (x : Int) (h1 : -(2 : Int) ^ 63 ≤ x) (h2 : x < (2 : Int) ^ 63) :
    wrap64 x = x := by
  unfold wrap64
  rw [Int.emod_eq_of_lt (by omega) (by omega)]
  omega

/-- C8 (amended): on a cache miss answered with status 200 and a well-formed
body whose `expires_in = E` lies between -9223371916 and 9223372036 (so that
`E * 1s - 2min` does not overflow), `fetchAccessToken` returns the response's
token with a nil error; if `E > 120` it writes both the access token and the
instance URL into the cache, and if `E ≤ 120` it writes nothing and leaves the
cache unchanged. -/
theorem fetchAccessToken_caches_iff (env : Env) (cfg : Config) (now : Int) (cache : Cache)
    (tr : TokenResponse)
    (hmiss : (getCachedToken cache now).2 = false)
    (hurl : env.newRequestErr (cfg.authURL ++ "/v2/token") = none)
    (hdo : env.authDo (cfg.authURL ++ "/v2/token")
      ⟨"client_credentials", cfg.clientID, cfg.clientSecret⟩
        = HttpResult.response 200 (some tr))
    (hlo : -9223371916 ≤ tr.expiresIn) (hhi : tr.expiresIn ≤ 9223372036) :
    (fetchAccessToken env cfg now cache).1 = (tr, none) ∧
      (120 < tr.expiresIn →
        (fetchAccessToken env cfg now cache).2.1
            = (cache.set now cacheKeyAccessTokenKey tr.accessToken
                (tr.expiresIn * second)).set now cacheKeyRestInstanceURLKey
                  tr.restInstanceURL (tr.expiresIn * second) ∧
          (fetchAccessToken env cfg now cache).2.2
            = [Event.authRequest (cfg.authURL ++ "/v2/token")
                  ⟨"client_credentials", cfg.clientID, cfg.clientSecret⟩,
                Event.cacheSet cacheKeyAccessTokenKey tr.accessToken (tr.expiresIn * second),
                Event.cacheSet cacheKeyRestInstanceURLKey tr.restInstanceURL
                  (tr.expiresIn * second)]) ∧
      (tr.expiresIn ≤ 120 →
        (fetchAccessToken env cfg now cache).2.1 = cache ∧
          (fetchAccessToken env cfg now cache).2.2
            = [Event.authRequest (cfg.authURL ++ "/v2/token")
                ⟨"client_credentials", cfg.clientID, cfg.clientSecret⟩]) := by
  have hw1 : wrap64 (tr.expiresIn * second) = tr.expiresIn * second := by
    apply wrap64_id <;> (unfold second; omega)
  have hw2 : wrap64 (tr.expiresIn * second - 2 * minute) = tr.expiresIn * second - 2 * minute := by
    apply wrap64_id <;> (unfold minute second; omega)
  rw [fetchAccessToken_ok env cfg now cache tr hmiss hurl hdo, hw1, hw2]
  refine ⟨?_, ?_, ?_⟩
  · split_ifs <;> rfl
  · intro h
    have : 0 < tr.expiresIn * second - 2 * minute := by unfold minute second; omega
    rw [if_pos this]
    exact ⟨rfl, rfl⟩
  · intro h
    have : ¬ (0 < tr.expiresIn * second - 2 * minute) := by unfold minute second; omega
    rw [if_neg this]
    exact ⟨rfl, rfl⟩

/-- Witness of `fetchAccessToken_caches_iff`: the token of the tests, which
lives 3600 seconds. -/
theorem fetchAccessToken_caches_iff_witness :
    (fetchAccessToken (tokenEnv 200 3600) testConfig 0 emptyCache).1
        = (⟨"newToken", 3600, "https://rest.example"⟩, none) ∧
      (fetchAccessToken (tokenEnv 200 3600) testConfig 0 emptyCache).2.1
        = (emptyCache.set 0 cacheKeyAccessTokenKey "newToken" (3600 * second)).set 0
            cacheKeyRestInstanceURLKey "https://rest.example" (3600 * second) :=
  have h := fetchAccessToken_caches_iff (tokenEnv 200 3600) testConfig 0 emptyCache
    ⟨"newToken", 3600, "https://rest.example"⟩ (by decide) (by decide) (by decide)
    (by decide) (by decide)
  ⟨h.1, (h.2.1 (by decide)).1⟩

/-- C8 (counterexample): a token with `expires_in = 10000000000` seconds, far
more than 120, is returned to the caller but not cached, because
`E * time.Second` overflows to a negative duration. -/
theorem fetchAccessToken_overflow_not_cached :
    (120 : Int) < 10000000000 ∧
      fetchAccessToken (tokenEnv 200 10000000000) testConfig 0 emptyCache
        = ((⟨"newToken", 10000000000, "https://rest.example"⟩, none), emptyCache,
            [Event.authRequest "https://auth.example/v2/token"
              ⟨"client_credentials", "testClientID", "testClientSecret"⟩]) := by
  decide

/-- Every error return of `fetchAccessToken` carries the zero token and leaves
the cache as it was. -/
theorem fetchAccessToken_error_frame (env : Env) (cfg : Config) (now : Int) (cache : Cache)
    (h : (fetchAccessToken env cfg now cache).1.2 ≠ none) :
    (fetchAccessToken env cfg now cache).1.1 = TokenResponse.zero ∧
      (fetchAccessToken env cfg now cache).2.1 = cache := by
  revert h
  unfold fetchAccessToken
  simp only
  split_ifs with h1
  · intro h; exact absurd rfl h
  · cases env.newRequestErr (cfg.authURL ++ "/v2/token") with
    | some msg => intro _; exact ⟨rfl, rfl⟩
    | none =>
      cases env.authDo (cfg.authURL ++ "/v2/token")
          ⟨"client_credentials", cfg.clientID, cfg.clientSecret⟩ with
      | transportError msg => intro _; exact ⟨rfl, rfl⟩
      | response status body =>
        simp only
        split_ifs with h2 h3
        · intro _; exact ⟨rfl, rfl⟩
        · intro _; exact ⟨rfl, rfl⟩
        · cases body with
          | none => intro _; exact ⟨rfl, rfl⟩
          | some tr =>
            simp only
            split_ifs <;> intro h <;> exact absurd rfl h

/-- C9 (amended): on a cache miss, when the token request can be built,
status 401 yields the error "unauthorized" with an empty token; every other
status different from 200 (the statuses 201..299 included) yields the error
"failed to fetch access token, status code: N" with an empty token; status 200
with a well-formed body yields that body and no error; and whenever an error
is returned the cache is unchanged. -/
theorem fetchAccessToken_status (env : Env) (cfg : Config) (now : Int) (cache : Cache)
    (hmiss : (getCachedToken cache now).2 = false)
    (hurl : env.newRequestErr (cfg.authURL ++ "/v2/token") = none) :
    (∀ body, env.authDo (cfg.authURL ++ "/v2/token")
          ⟨"client_credentials", cfg.clientID, cfg.clientSecret⟩
          = HttpResult.response 401 body →
        (fetchAccessToken env cfg now cache).1 = (TokenResponse.zero, some "unauthorized")) ∧
      (∀ status body, env.authDo (cfg.authURL ++ "/v2/token")
          ⟨"client_credentials", cfg.clientID, cfg.clientSecret⟩
          = HttpResult.response status body → status ≠ 200 → status ≠ 401 →
        (fetchAccessToken env cfg now cache).1
          = (TokenResponse.zero,
              some ("failed to fetch access token, status code: " ++ toString status))) ∧
      (∀ tr, env.authDo (cfg.authURL ++ "/v2/token")
          ⟨"client_credentials", cfg.clientID, cfg.clientSecret⟩
          = HttpResult.response 200 (some tr) →
        (fetchAccessToken env cfg now cache).1 = (tr, none)) ∧
      ((fetchAccessToken env cfg now cache).1.2 ≠ none →
        (fetchAccessToken env cfg now cache).2.1 = cache) := by
  refine ⟨?_, ?_, ?_, ?_⟩
  · intro body hdo
    unfold fetchAccessToken
    simp only [hmiss, hurl, hdo]
    simp
  · intro status body hdo h200 h401
    unfold fetchAccessToken
    simp only [hmiss, hurl, hdo]
    simp [h200, h401]
  · intro tr hdo
    rw [fetchAccessToken_ok env cfg now cache tr hmiss hurl hdo]
    split_ifs <;> rfl
  · intro h
    exact (fetchAccessToken_error_frame env cfg now cache h).2

/-- Witness of `fetchAccessToken_status`: the server of the test
"Unauthorized error". -/
theorem fetchAccessToken_status_witness :
    (fetchAccessToken (tokenEnv 401 3600) testConfig 0 emptyCache).1
      = (TokenResponse.zero, some "unauthorized") :=
  (fetchAccessToken_status (tokenEnv 401 3600) testConfig 0 emptyCache (by decide)
    (by decide)).1 (some ⟨"newToken", 3600, "https://rest.example"⟩) (by decide)

/-- C9 (counterexample): status 204, inside 200..299, with a well-formed body
does not yield success: the call returns the status-code error and an empty
token. -/
theorem fetchAccessToken_204_is_error :
    fetchAccessToken (tokenEnv 204 3600) testConfig 0 emptyCache
      = ((TokenResponse.zero, some "failed to fetch access token, status code: 204"),
          emptyCache,
          [Event.authRequest "https://auth.example/v2/token"
            ⟨"client_credentials", "testClientID", "testClientSecret"⟩]) := by
  decide

/-! ## The fan-out: general facts -/

theorem pageRequests_append (a b : List Event) :
    pageRequests (a ++ b) = pageRequests a ++ pageRequests b := by
  induction a with
  | nil => rfl
  | cons e t ih => cases e <;> simp [pageRequests, ih]

/-- When the request can be built, `fetchSingleAssetPage` sends exactly its
request. -/
theorem fetchSingleAssetPage_trace (env : Env) (u t : String) (r : ContentBlocksRequest)
    (tr : List Event)
    (hurl : env.newRequestErr (u ++ "/asset/v1/content/assets/query") = none) :
    (fetchSingleAssetPage env u t r tr).2
      = tr ++ [Event.pageRequest (u ++ "/asset/v1/content/assets/query") t r] := by
  unfold fetchSingleAssetPage
  simp only [hurl]
  cases env.pageDo (pageRequests tr).length (u ++ "/asset/v1/content/assets/query") t r with
  | transportError msg => rfl
  | response status body =>
    simp only
    split_ifs
    · rfl
    · cases body <;> rfl

/-- When the request cannot be built, `fetchSingleAssetPage` fails and sends
nothing. -/
theorem fetchSingleAssetPage_bad_url (env : Env) (u t : String) (r : ContentBlocksRequest)
    (tr : List Event) (msg : String)
    (hurl : env.newRequestErr (u ++ "/asset/v1/content/assets/query") = some msg) :
    fetchSingleAssetPage env u t r tr
      = ((ContentAssetsResponse.zero, some ("failed to create HTTP request: " ++ msg)), tr) := by
  unfold fetchSingleAssetPage
  simp only [hurl]

/-- A fetch that succeeds was able to build its request. -/
theorem fetchSingleAssetPage_ok_url (env : Env) (u t : String) (r : ContentBlocksRequest)
    (tr : List Event) (h : (fetchSingleAssetPage env u t r tr).1.2 = none) :
    env.newRequestErr (u ++ "/asset/v1/content/assets/query") = none := by
  cases hurl : env.newRequestErr (u ++ "/asset/v1/content/assets/query") with
  | none => rfl
  | some msg =>
    rw [fetchSingleAssetPage_bad_url env u t r tr msg hurl] at h
    simp at h

/-- What `fetchSingleAssetPage` adds to the events: nothing or its request. -/
theorem fetchSingleAssetPage_trace_cases (env : Env) (u t : String) (r : ContentBlocksRequest)
    (tr : List Event) :
    (fetchSingleAssetPage env u t r tr).2 = tr ∨
      (fetchSingleAssetPage env u t r tr).2
        = tr ++ [Event.pageRequest (u ++ "/asset/v1/content/assets/query") t r] := by
  cases hurl : env.newRequestErr (u ++ "/asset/v1/content/assets/query") with
  | none => exact Or.inr (fetchSingleAssetPage_trace env u t r tr hurl)
  | some msg => left; rw [fetchSingleAssetPage_bad_url env u t r tr msg hurl]

/-- A goroutine that does not exist takes no step. -/
theorem step_none (env : Env) (u t : String) (s : FanOut) (i : Nat) (h : s.tasks[i]? = none) :
    step env u t s i = s := by
  unfold step
  rw [h]

/-- The step of an existing goroutine. -/
theorem step_some (env : Env) (u t : String) (s : FanOut) (i : Nat) (g : Task)
    (h : s.tasks[i]? = some g) :
    step env u t s i =
      { request := (stepTask env u t g s.request s.chan s.trace).2.1,
        chan := (stepTask env u t g s.request s.chan s.trace).2.2.1,
        trace := (stepTask env u t g s.request s.chan s.trace).2.2.2,
        tasks := s.tasks.set i (stepTask env u t g s.request s.chan s.trace).1 } := by
  unfold step
  rw [h]

/-- The four cases of `stepTask`. -/
theorem stepTask_cases (env : Env) (u t : String) (g : Task) (request : ContentBlocksRequest)
    (chan : List (List ContentBlock)) (trace : List Event) :
    (g.pc = 0 ∧ stepTask env u t g request chan trace
        = ({ g with pc := 1 }, { request with page := g.page }, chan, trace)) ∨
    (g.pc = 1 ∧ ∃ blocks, stepTask env u t g request chan trace
        = ({ g with pc := 2, blocks := blocks }, request, chan,
            (fetchSingleAssetPage env u t request trace).2)) ∨
    (g.pc = 2 ∧ stepTask env u t g request chan trace
        = ({ g with pc := 3 }, request, chan ++ [g.blocks], trace)) ∨
    (3 ≤ g.pc ∧ stepTask env u t g request chan trace = (g, request, chan, trace)) := by
  rcases g with ⟨page, pc, blocks⟩
  match pc with
  | 0 => left; exact ⟨rfl, rfl⟩
  | 1 =>
    right; left
    refine ⟨rfl, ?_⟩
    unfold stepTask
    simp only
    cases (fetchSingleAssetPage env u t request trace).1.2 with
    | none => exact ⟨_, rfl⟩
    | some e => exact ⟨_, rfl⟩
  | 2 => right; right; left; exact ⟨rfl, rfl⟩
  | n + 3 =>
    right; right; right
    refine ⟨by simp, ?_⟩
    unfold stepTask
    simp

theorem step_length (env : Env) (u t : String) (s : FanOut) (i : Nat) :
    (step env u t s i).tasks.length = s.tasks.length := by
  cases h : s.tasks[i]? with
  | none => rw [step_none env u t s i h]
  | some g => rw [step_some env u t s i g h]; simp

/-- A step leaves the other goroutines alone. -/
theorem step_other (env : Env) (u t : String) (s : FanOut) (i j : Nat) (hij : i ≠ j) :
    (step env u t s i).tasks[j]? = s.tasks[j]? := by
  cases h : s.tasks[i]? with
  | none => rw [step_none env u t s i h]
  | some g => rw [step_some env u t s i g h]; simp [hij]

/-- A step moves its goroutine forward, up to its end. -/
theorem step_self (env : Env) (u t : String) (s : FanOut) (i : Nat) (g : Task)
    (h : s.tasks[i]? = some g) :
    ∃ g1, (step env u t s i).tasks[i]? = some g1 ∧ (g.pc + 1 ≤ g1.pc ∨ 3 ≤ g1.pc) := by
  have hi : i < s.tasks.length := by
    rcases List.getElem?_eq_some_iff.mp h with ⟨hi, _⟩; exact hi
  rw [step_some env u t s i g h]
  refine ⟨_, List.getElem?_set_self hi, ?_⟩
  rcases stepTask_cases env u t g s.request s.chan s.trace with
    ⟨hp, he⟩ | ⟨hp, b, he⟩ | ⟨hp, he⟩ | ⟨hp, he⟩ <;> rw [he] <;> simp <;> omega

/-- A property kept by every step is kept by a schedule. -/
theorem runSchedule_invariant (env : Env) (u t : String) (P : FanOut → Prop)
    (hstep : ∀ s i, P s → P (step env u t s i)) (schedule : List Nat) :
    ∀ s, P s → P (runSchedule env u t schedule s) := by
  induction schedule with
  | nil => intro s h; exact h
  | cons i rest ih =>
    intro s h
    exact ih (step env u t s i) (hstep s i h)

/-- A property kept by every step is kept by the wait. -/
theorem waitAll_invariant (env : Env) (u t : String) (P : FanOut → Prop)
    (hstep : ∀ s i, P s → P (step env u t s i)) (s : FanOut) (h : P s) :
    P (waitAll env u t s) := by
  unfold waitAll
  generalize List.range s.tasks.length = l
  induction l generalizing s with
  | nil => exact h
  | cons i rest ih =>
    exact ih _ (hstep _ i (hstep _ i (hstep _ i h)))

/-- Three steps of one goroutine bring it to its end. -/
theorem step3_done (env : Env) (u t : String) (s : FanOut) (i : Nat) (g : Task)
    (h : (step env u t (step env u t (step env u t s i) i) i).tasks[i]? = some g) :
    3 ≤ g.pc := by
  have hl1 := step_length env u t s i
  have hl2 := step_length env u t (step env u t s i) i
  have hl3 := step_length env u t (step env u t (step env u t s i) i) i
  have hi : i < s.tasks.length := by
    rcases List.getElem?_eq_some_iff.mp h with ⟨hi, _⟩
    omega
  obtain ⟨g0, hg0⟩ : ∃ g0, s.tasks[i]? = some g0 := ⟨s.tasks[i], List.getElem?_eq_getElem hi⟩
  obtain ⟨g1, hg1, h1⟩ := step_self env u t s i g0 hg0
  obtain ⟨g2, hg2, h2⟩ := step_self env u t _ i g1 hg1
  obtain ⟨g3, hg3, h3⟩ := step_self env u t _ i g2 hg2
  rw [hg3] at h
  cases h
  omega

/-- A finished goroutine stays finished. -/
theorem step_done_stays (env : Env) (u t : String) (s : FanOut) (i j : Nat)
    (hj : ∀ g, s.tasks[j]? = some g → 3 ≤ g.pc) :
    ∀ g, (step env u t s i).tasks[j]? = some g → 3 ≤ g.pc := by
  intro g hg
  by_cases hij : i = j
  · subst hij
    have hi : i < s.tasks.length := by
      rcases List.getElem?_eq_some_iff.mp hg with ⟨hi, _⟩
      rw [step_length] at hi; exact hi
    have hg0 : s.tasks[i]? = some s.tasks[i] := List.getElem?_eq_getElem hi
    obtain ⟨g1, hg1, h1⟩ := step_self env u t s i _ hg0
    rw [hg1] at hg
    cases hg
    have := hj _ hg0
    omega
  · rw [step_other env u t s i j hij] at hg
    exact hj g hg

/-- After the wait every goroutine is at its end. -/
theorem waitAll_done (env : Env) (u t : String) (s : FanOut) :
    ∀ g ∈ (waitAll env u t s).tasks, 3 ≤ g.pc := by
  have key : ∀ k, ∀ s0 : FanOut,
      ∀ j, j < k → ∀ g,
        ((List.range k).foldl (fun s i => step env u t (step env u t (step env u t s i) i) i)
          s0).tasks[j]? = some g → 3 ≤ g.pc := by
    intro k
    induction k with
    | zero => intro s0 j hj; omega
    | succ k ih =>
      intro s0 j hj g hg
      rw [List.range_succ, List.foldl_append] at hg
      simp only [List.foldl_cons, List.foldl_nil] at hg
      by_cases hjk : j = k
      · subst hjk
        exact step3_done env u t _ j g hg
      · have hlt : j < k := by omega
        exact step_done_stays env u t _ k j
          (step_done_stays env u t _ k j (step_done_stays env u t _ k j (ih s0 j hlt))) g hg
  have hlen : (waitAll env u t s).tasks.length = s.tasks.length :=
    waitAll_invariant env u t (fun x => x.tasks.length = s.tasks.length)
      (fun x i hx => (step_length env u t x i).trans hx) s rfl
  intro g hg
  obtain ⟨j, hj, hgj⟩ := List.getElem_of_mem hg
  have hj2 : j < s.tasks.length := by omega
  apply key s.tasks.length s j hj2 g
  have : (waitAll env u t s).tasks[j]? = some g := by
    rw [List.getElem?_eq_getElem hj, hgj]
  exact this

/-- Steps never change the number of goroutines. -/
theorem run_length (env : Env) (u t : String) (schedule : List Nat) (s : FanOut) :
    (waitAll env u t (runSchedule env u t schedule s)).tasks.length = s.tasks.length := by
  have h1 : (runSchedule env u t schedule s).tasks.length = s.tasks.length :=
    runSchedule_invariant env u t (fun x => x.tasks.length = s.tasks.length)
      (fun x i hx => (step_length env u t x i).trans hx) schedule s rfl
  exact waitAll_invariant env u t (fun x => x.tasks.length = s.tasks.length)
    (fun x i hx => (step_length env u t x i).trans hx) _ h1

/-- With a request that can be built, every step keeps the balance between the
page requests sent and the goroutines that have sent theirs. -/
theorem step_count (env : Env) (u t : String) (s : FanOut) (i : Nat)
    (hurl : env.newRequestErr (u ++ "/asset/v1/content/assets/query") = none) :
    (pageRequests (step env u t s i).trace).length
        + s.tasks.countP (fun g => decide (2 ≤ g.pc))
      = (pageRequests s.trace).length
        + (step env u t s i).tasks.countP (fun g => decide (2 ≤ g.pc)) := by
  cases h : s.tasks[i]? with
  | none => rw [step_none env u t s i h]
  | some g =>
    obtain ⟨hi, hgi⟩ := List.getElem?_eq_some_iff.mp h
    rw [step_some env u t s i g h]
    simp only
    rw [List.countP_set _ _ _ _ hi, hgi]
    have hb := List.boole_getElem_le_countP (fun g => decide (2 ≤ g.pc)) s.tasks i hi
    rw [hgi] at hb
    rcases stepTask_cases env u t g s.request s.chan s.trace with
      ⟨hp, he⟩ | ⟨hp, b, he⟩ | ⟨hp, he⟩ | ⟨hp, he⟩
    · rw [he]; simp [hp]
    · rw [he]
      simp only [fetchSingleAssetPage_trace env u t s.request s.trace hurl, pageRequests_append,
        List.length_append]
      simp [hp, pageRequests]
      omega
    · rw [he]
      have hd : decide (2 ≤ g.pc) = true := by simp [hp]
      have hd3 : decide (2 ≤ ({ g with pc := 3 } : Task).pc) = true := by simp
      rw [hd, if_pos rfl] at hb
      simp only [hd, hd3, if_true]
      omega
    · rw [he]
      have hd : decide (2 ≤ g.pc) = true := by simp; omega
      rw [hd, if_pos rfl] at hb
      simp only [hd, if_true]
      omega

/-- Every step keeps the requests sent, and the captured variable, equal to
the caller's request outside the page number. -/
theorem step_frame (env : Env) (u t : String) (req : ContentBlocksRequest) (s : FanOut)
    (i : Nat)
    (h : sameFrame s.request req ∧ ∀ r ∈ pageRequests s.trace, sameFrame r req) :
    sameFrame (step env u t s i).request req ∧
      ∀ r ∈ pageRequests (step env u t s i).trace, sameFrame r req := by
  cases hg : s.tasks[i]? with
  | none => rw [step_none env u t s i hg]; exact h
  | some g =>
    rw [step_some env u t s i g hg]
    simp only
    rcases stepTask_cases env u t g s.request s.chan s.trace with
      ⟨hp, he⟩ | ⟨hp, b, he⟩ | ⟨hp, he⟩ | ⟨hp, he⟩
    · rw [he]; exact ⟨h.1, h.2⟩
    · rw [he]
      refine ⟨h.1, ?_⟩
      simp only
      rcases fetchSingleAssetPage_trace_cases env u t s.request s.trace with e | e
      · rw [e]; exact h.2
      · rw [e, pageRequests_append]
        intro r hr
        rcases List.mem_append.mp hr with hr | hr
        · exact h.2 r hr
        · simp [pageRequests] at hr
          rw [hr]; exact h.1
    · rw [he]; exact h
    · rw [he]; exact h

theorem spawn_length (n : Nat) : (spawn n).length = n := by
  simp [spawn]

theorem spawn_countP (n : Nat) : (spawn n).countP (fun g => decide (2 ≤ g.pc)) = 0 := by
  simp [spawn, List.countP_eq_zero]

/-- No page request is sent while the token is obtained. -/
theorem fetchAccessToken_pageRequests (env : Env) (cfg : Config) (now : Int) (cache : Cache) :
    pageRequests (fetchAccessToken env cfg now cache).2.2 = [] := by
  unfold fetchAccessToken
  simp only
  split_ifs
  · rfl
  · cases env.newRequestErr (cfg.authURL ++ "/v2/token") with
    | some msg => rfl
    | none =>
      cases env.authDo (cfg.authURL ++ "/v2/token")
          ⟨"client_credentials", cfg.clientID, cfg.clientSecret⟩ with
      | transportError msg => rfl
      | response status body =>
        simp only
        split_ifs
        · rfl
        · rfl
        · cases body with
          | none => rfl
          | some tr =>
            simp only
            split_ifs <;> rfl

/-- With a request that can be built, the fan-out for `n` pages sends exactly
`n` page requests, whatever the schedule. -/
theorem fanOut_count (env : Env) (u t : String) (schedule : List Nat)
    (request : ContentBlocksRequest) (trace : List Event) (n : Nat)
    (hurl : env.newRequestErr (u ++ "/asset/v1/content/assets/query") = none) :
    (pageRequests (fanOut env u t schedule request trace n).trace).length
      = (pageRequests trace).length + n := by
  have hinv : ∀ s i, (pageRequests s.trace).length
        = (pageRequests trace).length + s.tasks.countP (fun g => decide (2 ≤ g.pc)) →
      (pageRequests (step env u t s i).trace).length
        = (pageRequests trace).length
          + (step env u t s i).tasks.countP (fun g => decide (2 ≤ g.pc)) := by
    intro s i h
    have := step_count env u t s i hurl
    omega
  have h0 : (pageRequests trace).length
      = (pageRequests trace).length + (spawn n).countP (fun g => decide (2 ≤ g.pc)) := by
    rw [spawn_countP]; rfl
  have h1 := runSchedule_invariant env u t
    (fun s => (pageRequests s.trace).length
        = (pageRequests trace).length + s.tasks.countP (fun g => decide (2 ≤ g.pc)))
    hinv schedule (FanOut.mk request [] trace (spawn n)) h0
  have h2 := waitAll_invariant env u t
    (fun s => (pageRequests s.trace).length
        = (pageRequests trace).length + s.tasks.countP (fun g => decide (2 ≤ g.pc)))
    hinv _ h1
  have hdone := waitAll_done env u t
    (runSchedule env u t schedule (FanOut.mk request [] trace (spawn n)))
  have hlen := run_length env u t schedule
    (FanOut.mk request [] trace (spawn n))
  have hall : (fanOut env u t schedule request trace n).tasks.countP
      (fun g => decide (2 ≤ g.pc)) = n := by
    unfold fanOut
    rw [List.countP_eq_length.mpr, hlen]
    · exact spawn_length n
    · intro g hg
      have := hdone g hg
      simp; omega
  unfold fanOut at hall ⊢
  simp only at h2
  rw [h2, hall]

/-- Every page request of the fan-out agrees with the caller's request
outside the page number, whatever the schedule. -/
theorem fanOut_frame (env : Env) (u t : String) (schedule : List Nat)
    (request req : ContentBlocksRequest) (trace : List Event) (n : Nat)
    (h1 : sameFrame request req) (h2 : ∀ r ∈ pageRequests trace, sameFrame r req) :
    ∀ r ∈ pageRequests (fanOut env u t schedule request trace n).trace, sameFrame r req := by
  have h := runSchedule_invariant env u t
    (fun s => sameFrame s.request req ∧ ∀ r ∈ pageRequests s.trace, sameFrame r req)
    (fun s i hs => step_frame env u t req s i hs) schedule
    (FanOut.mk request [] trace (spawn n)) ⟨h1, h2⟩
  exact (waitAll_invariant env u t
    (fun s => sameFrame s.request req ∧ ∀ r ∈ pageRequests s.trace, sameFrame r req)
    (fun s i hs => step_frame env u t req s i hs) _ h).2

/-- With no page there is no goroutine: nothing is sent, nothing received. -/
theorem fanOut_zero (env : Env) (u t : String) (schedule : List Nat)
    (request : ContentBlocksRequest) (trace : List Event) :
    fanOut env u t schedule request trace 0
      = { request := request, chan := [], trace := trace, tasks := [] } := by
  have h := runSchedule_invariant env u t
    (fun s => s = { request := request, chan := [], trace := trace, tasks := [] })
    (fun s i hs => by
      have : s.tasks[i]? = none := by rw [hs]; rfl
      rw [step_none env u t s i this]; exact hs)
    schedule (FanOut.mk request [] trace (spawn 0)) rfl
  unfold fanOut
  rw [h]
  rfl

theorem waitAll_single (env : Env) (u t : String) (s : FanOut) (g : Task)
    (h : s.tasks = [g]) :
    waitAll env u t s = step env u t (step env u t (step env u t s 0) 0) 0 := by
  unfold waitAll
  rw [h]
  rfl

theorem step_single_tasks (env : Env) (u t : String) (s : FanOut) (g : Task) (i : Nat)
    (h : s.tasks = [g]) : ∃ g1, (step env u t s i).tasks = [g1] := by
  cases hi : s.tasks[i]? with
  | none => rw [step_none env u t s i hi]; exact ⟨g, h⟩
  | some g0 =>
    rw [step_some env u t s i g0 hi]
    simp only [h]
    cases i with
    | zero => exact ⟨_, rfl⟩
    | succ j => rw [h] at hi; simp at hi

/-- A goroutine at its end takes no step. -/
theorem step_single_done (env : Env) (u t : String) (s : FanOut) (g : Task)
    (h : s.tasks = [g]) (hpc : 3 ≤ g.pc) : step env u t s 0 = s := by
  rcases s with ⟨req, chan, trace, tasks⟩
  simp only at h
  subst h
  rw [step_some env u t (FanOut.mk req chan trace [g]) 0 g rfl]
  rcases stepTask_cases env u t g req chan trace with
    ⟨hp, he⟩ | ⟨hp, b, he⟩ | ⟨hp, he⟩ | ⟨hp, he⟩
  · omega
  · omega
  · omega
  · simp only [he, List.set_cons_zero]

theorem step_single_pc (env : Env) (u t : String) (s : FanOut) (g : Task)
    (h : s.tasks = [g]) :
    ∃ g1, (step env u t s 0).tasks = [g1] ∧ (g.pc + 1 ≤ g1.pc ∨ 3 ≤ g1.pc) := by
  obtain ⟨g1, hg1⟩ := step_single_tasks env u t s g 0 h
  have hg : s.tasks[0]? = some g := by rw [h]; rfl
  obtain ⟨g2, hg2, hpc⟩ := step_self env u t s 0 g hg
  rw [hg1] at hg2
  simp at hg2
  subst hg2
  exact ⟨g1, hg1, hpc⟩

/-- With a single goroutine a fourth step changes nothing. -/
theorem step4_single (env : Env) (u t : String) (s : FanOut) (g : Task) (h : s.tasks = [g]) :
    step env u t (step env u t (step env u t (step env u t s 0) 0) 0) 0
      = step env u t (step env u t (step env u t s 0) 0) 0 := by
  obtain ⟨g1, hg1, h1⟩ := step_single_pc env u t s g h
  obtain ⟨g2, hg2, h2⟩ := step_single_pc env u t _ g1 hg1
  obtain ⟨g3, hg3, h3⟩ := step_single_pc env u t _ g2 hg2
  exact step_single_done env u t _ g3 hg3 (by omega)

/-- With a single goroutine the schedule does not matter. -/
theorem run_single (env : Env) (u t : String) (schedule : List Nat) :
    ∀ (s : FanOut) (g : Task), s.tasks = [g] →
      waitAll env u t (runSchedule env u t schedule s) = waitAll env u t s := by
  induction schedule with
  | nil => intro s g h; rfl
  | cons i rest ih =>
    intro s g h
    obtain ⟨g1, hg1⟩ := step_single_tasks env u t s g i h
    have h1 : runSchedule env u t (i :: rest) s = runSchedule env u t rest (step env u t s i) :=
      rfl
    rw [h1, ih (step env u t s i) g1 hg1]
    cases i with
    | zero =>
      rw [waitAll_single env u t _ g1 hg1, waitAll_single env u t s g h]
      exact step4_single env u t s g h
    | succ j =>
      have : s.tasks[j + 1]? = none := by rw [h]; rfl
      rw [step_none env u t s (j + 1) this]

/-- The fan-out for one page: its goroutine fetches page 1 again and sends
what it got, or nothing when the fetch failed. -/
theorem fanOut_one (env : Env) (u t : String) (schedule : List Nat)
    (request : ContentBlocksRequest) (trace : List Event) :
    (fanOut env u t schedule request trace 1).chan
        = [if (fetchSingleAssetPage env u t { request with page := 1 } trace).1.2 = none
            then (fetchSingleAssetPage env u t { request with page := 1 } trace).1.1.items
            else []] ∧
      (fanOut env u t schedule request trace 1).trace
        = (fetchSingleAssetPage env u t { request with page := 1 } trace).2 := by
  unfold fanOut
  have hs : (FanOut.mk request [] trace (spawn 1)).tasks = [⟨1, 0, []⟩] := rfl
  rw [run_single env u t schedule _ _ hs, waitAll_single env u t _ _ hs]
  have e1 : step env u t (FanOut.mk request [] trace (spawn 1)) 0
      = FanOut.mk { request with page := 1 } [] trace [⟨1, 1, []⟩] := rfl
  rw [e1]
  cases h : (fetchSingleAssetPage env u t { request with page := 1 } trace).1.2 with
  | none =>
    have e2 : step env u t (FanOut.mk { request with page := 1 } [] trace [⟨1, 1, []⟩]) 0
        = FanOut.mk { request with page := 1 } []
            (fetchSingleAssetPage env u t { request with page := 1 } trace).2
            [⟨1, 2, (fetchSingleAssetPage env u t { request with page := 1 } trace).1.1.items⟩] := by
      rw [step_some env u t (FanOut.mk { request with page := 1 } [] trace [⟨1, 1, []⟩]) 0
        ⟨1, 1, []⟩ rfl]
      simp only [stepTask, h, List.set_cons_zero]
    rw [e2]
    exact ⟨rfl, rfl⟩
  | some e =>
    have e2 : step env u t (FanOut.mk { request with page := 1 } [] trace [⟨1, 1, []⟩]) 0
        = FanOut.mk { request with page := 1 } []
            (fetchSingleAssetPage env u t { request with page := 1 } trace).2
            [⟨1, 2, []⟩] := by
      rw [step_some env u t (FanOut.mk { request with page := 1 } [] trace [⟨1, 1, []⟩]) 0
        ⟨1, 1, []⟩ rfl]
      simp only [stepTask, h, List.set_cons_zero]
    rw [e2]
    exact ⟨rfl, rfl⟩

/-! ## `FetchContentBlocks`: the five ways a call can go -/

/-- Case analysis of `FetchContentBlocks`: the token fails; the first page
fails; the page count is implementation-dependent; the page count is negative;
or the fan-out runs and the call returns what the channel received. -/
theorem FetchContentBlocks_cases (env : Env) (cfg : Config) (now : Int) (schedule : List Nat)
    (cache : Cache) (request : ContentBlocksRequest) :
    (∃ e, (fetchAccessToken env cfg now cache).1.2 = some e ∧
        FetchContentBlocks env cfg now schedule cache request
          = (Outcome.returned ([], some ("failed to fetch access token: " ++ e)),
              (fetchAccessToken env cfg now cache).2.1,
              (fetchAccessToken env cfg now cache).2.2)) ∨
    ((fetchAccessToken env cfg now cache).1.2 = none ∧
      ((∃ e, (firstPage env cfg now cache request).1.2 = some e ∧
          FetchContentBlocks env cfg now schedule cache request
            = (Outcome.returned ([], some ("failed to fetch first page of assets: " ++ e)),
                (fetchAccessToken env cfg now cache).2.1,
                (firstPage env cfg now cache request).2)) ∨
       ((firstPage env cfg now cache request).1.2 = none ∧
        ((totalPages (firstPage env cfg now cache request).1.1.count
              (firstPage env cfg now cache request).1.1.pageSize = none ∧
            FetchContentBlocks env cfg now schedule cache request
              = (Outcome.implementationDependent, (fetchAccessToken env cfg now cache).2.1,
                  (firstPage env cfg now cache request).2)) ∨
         (∃ n : Int, totalPages (firstPage env cfg now cache request).1.1.count
              (firstPage env cfg now cache request).1.1.pageSize = some n ∧
            ((n < 0 ∧ FetchContentBlocks env cfg now schedule cache request
                = (Outcome.panicked, (fetchAccessToken env cfg now cache).2.1,
                    (firstPage env cfg now cache request).2)) ∨
             (0 ≤ n ∧ FetchContentBlocks env cfg now schedule cache request
                = (Outcome.returned
                    ((fanOut env (fetchAccessToken env cfg now cache).1.1.restInstanceURL
                      (fetchAccessToken env cfg now cache).1.1.accessToken schedule
                      { request with page := 1 }
                      (firstPage env cfg now cache request).2 n.toNat).chan.flatten, none),
                    (fetchAccessToken env cfg now cache).2.1,
                    (fanOut env (fetchAccessToken env cfg now cache).1.1.restInstanceURL
                      (fetchAccessToken env cfg now cache).1.1.accessToken schedule
                      { request with page := 1 }
                      (firstPage env cfg now cache request).2 n.toNat).trace)))))))) := by
  unfold FetchContentBlocks
  simp only
  cases h1 : (fetchAccessToken env cfg now cache).1.2 with
  | some e => left; exact ⟨e, rfl, rfl⟩
  | none =>
    right
    refine ⟨rfl, ?_⟩
    cases h2 : (firstPage env cfg now cache request).1.2 with
    | some e => left; exact ⟨e, rfl, rfl⟩
    | none =>
      right
      refine ⟨rfl, ?_⟩
      cases h3 : totalPages (firstPage env cfg now cache request).1.1.count
          (firstPage env cfg now cache request).1.1.pageSize with
      | none => left; exact ⟨rfl, rfl⟩
      | some n =>
        right
        refine ⟨n, rfl, ?_⟩
        simp only
        by_cases hn : n < 0
        · left; rw [if_pos hn]; exact ⟨hn, rfl⟩
        · right; rw [if_neg hn]; exact ⟨by omega, rfl⟩

/-- The page requests after the first-page fetch: none when the request could
not be built, else the caller's request with page 1. -/
theorem firstPage_pageRequests (env : Env) (cfg : Config) (now : Int) (cache : Cache)
    (request : ContentBlocksRequest) :
    pageRequests (firstPage env cfg now cache request).2 = [] ∨
      pageRequests (firstPage env cfg now cache request).2 = [{ request with page := 1 }] := by
  unfold firstPage
  simp only
  rcases fetchSingleAssetPage_trace_cases env
      (fetchAccessToken env cfg now cache).1.1.restInstanceURL
      (fetchAccessToken env cfg now cache).1.1.accessToken { request with page := 1 }
      (fetchAccessToken env cfg now cache).2.2 with e | e
  · left; rw [e]; exact fetchAccessToken_pageRequests env cfg now cache
  · right
    rw [e, pageRequests_append, fetchAccessToken_pageRequests env cfg now cache]
    rfl

/-- A first-page fetch that succeeds has sent exactly one page request. -/
theorem firstPage_ok_pageRequests (env : Env) (cfg : Config) (now : Int) (cache : Cache)
    (request : ContentBlocksRequest) (h : (firstPage env cfg now cache request).1.2 = none) :
    env.newRequestErr ((fetchAccessToken env cfg now cache).1.1.restInstanceURL
        ++ "/asset/v1/content/assets/query") = none ∧
      pageRequests (firstPage env cfg now cache request).2 = [{ request with page := 1 }] := by
  have hurl := fetchSingleAssetPage_ok_url env
    (fetchAccessToken env cfg now cache).1.1.restInstanceURL
    (fetchAccessToken env cfg now cache).1.1.accessToken { request with page := 1 }
    (fetchAccessToken env cfg now cache).2.2 h
  refine ⟨hurl, ?_⟩
  unfold firstPage
  simp only
  rw [fetchSingleAssetPage_trace env _ _ _ _ hurl, pageRequests_append,
    fetchAccessToken_pageRequests env cfg now cache]
  rfl

theorem set_map_self {α β : Type} (l : List α) (f : α → β) (i : Nat) (g : α)
    (h : l[i]? = some g) : (l.map f).set i (f g) = l.map f := by
  apply List.ext_getElem?
  intro j
  rw [List.getElem?_set]
  by_cases hij : i = j
  · subst hij
    simp [h]
    rcases List.getElem?_eq_some_iff.mp h with ⟨hi, _⟩
    exact hi
  · simp [hij]

/-- A step never changes the page a goroutine was started for. -/
theorem step_pages (env : Env) (u t : String) (s : FanOut) (i : Nat) :
    (step env u t s i).tasks.map (fun g => g.page) = s.tasks.map (fun g => g.page) := by
  cases h : s.tasks[i]? with
  | none => rw [step_none env u t s i h]
  | some g =>
    rw [step_some env u t s i g h]
    simp only [List.map_set]
    have hp : (stepTask env u t g s.request s.chan s.trace).1.page = g.page := by
      rcases stepTask_cases env u t g s.request s.chan s.trace with
        ⟨_, he⟩ | ⟨_, b, he⟩ | ⟨_, he⟩ | ⟨_, he⟩ <;> rw [he]
    rw [hp]
    exact set_map_self s.tasks (fun g => g.page) i g h

/-- Every step keeps the balance between the slices on the channel and the
goroutines that have sent theirs. -/
theorem step_chan (env : Env) (u t : String) (s : FanOut) (i : Nat) :
    (step env u t s i).chan.length + s.tasks.countP (fun g => decide (3 ≤ g.pc))
      = s.chan.length + (step env u t s i).tasks.countP (fun g => decide (3 ≤ g.pc)) := by
  cases h : s.tasks[i]? with
  | none => rw [step_none env u t s i h]
  | some g =>
    obtain ⟨hi, hgi⟩ := List.getElem?_eq_some_iff.mp h
    rw [step_some env u t s i g h]
    simp only
    rw [List.countP_set _ _ _ _ hi, hgi]
    have hb := List.boole_getElem_le_countP (fun g => decide (3 ≤ g.pc)) s.tasks i hi
    rw [hgi] at hb
    rcases stepTask_cases env u t g s.request s.chan s.trace with
      ⟨hp, he⟩ | ⟨hp, b, he⟩ | ⟨hp, he⟩ | ⟨hp, he⟩
    · rw [he]; simp [hp]
    · rw [he]; simp [hp]
    · rw [he]; simp [hp]; omega
    · rw [he]
      have hd : decide (3 ≤ g.pc) = true := by simp; omega
      rw [hd, if_pos rfl] at hb
      simp only [hd, if_true]
      omega

/-- The goroutines of the fan-out for `n` pages are those started for the
pages `1..n`, and each of them sends exactly one slice on the channel,
whatever the schedule. -/
theorem fanOut_tasks (env : Env) (u t : String) (schedule : List Nat)
    (request : ContentBlocksRequest) (trace : List Event) (n : Nat) :
    (fanOut env u t schedule request trace n).tasks.map (fun g => g.page)
        = (List.range n).map (fun (i : Nat) => (i : Int) + 1) ∧
      (fanOut env u t schedule request trace n).chan.length = n := by
  constructor
  · have h1 := runSchedule_invariant env u t
      (fun s => s.tasks.map (fun g => g.page)
        = (List.range n).map (fun (i : Nat) => (i : Int) + 1))
      (fun s i hs => (step_pages env u t s i).trans hs) schedule
      (FanOut.mk request [] trace (spawn n)) (by simp [spawn])
    exact waitAll_invariant env u t
      (fun s => s.tasks.map (fun g => g.page)
        = (List.range n).map (fun (i : Nat) => (i : Int) + 1))
      (fun s i hs => (step_pages env u t s i).trans hs) _ h1
  · have hinv : ∀ s i, s.chan.length = s.tasks.countP (fun g => decide (3 ≤ g.pc)) →
        (step env u t s i).chan.length
          = (step env u t s i).tasks.countP (fun g => decide (3 ≤ g.pc)) := by
      intro s i h
      have := step_chan env u t s i
      omega
    have h0 : (FanOut.mk request [] trace (spawn n)).chan.length
        = (FanOut.mk request [] trace (spawn n)).tasks.countP
            (fun g => decide (3 ≤ g.pc)) := by
      have hz : (spawn n).countP (fun g => decide (3 ≤ g.pc)) = 0 := by
        rw [List.countP_eq_zero]
        intro g hg
        simp only [spawn, List.mem_map] at hg
        obtain ⟨i, _, rfl⟩ := hg
        simp
      simp only [List.length_nil, hz]
    have h1 := runSchedule_invariant env u t
      (fun s => s.chan.length = s.tasks.countP (fun g => decide (3 ≤ g.pc)))
      hinv schedule _ h0
    have h2 := waitAll_invariant env u t
      (fun s => s.chan.length = s.tasks.countP (fun g => decide (3 ≤ g.pc)))
      hinv _ h1
    have hdone := waitAll_done env u t
      (runSchedule env u t schedule (FanOut.mk request [] trace (spawn n)))
    have hlen := run_length env u t schedule (FanOut.mk request [] trace (spawn n))
    unfold fanOut
    simp only at h2
    rw [h2, List.countP_eq_length.mpr, hlen]
    · exact spawn_length n
    · intro g hg
      have := hdone g hg
      simp; omega

/-! ## Claims on `FetchContentBlocks` -/

/-- C2 (the code at the failing input): three records in pages of two, both
pages served.  When the two goroutines run one after the other the call
returns the three blocks; when both write the shared `request` before either
reads it, both ask for page 2 and the call returns Block 3 twice and neither
Block 1 nor Block 2, which is no permutation of the three blocks. -/
theorem FetchContentBlocks_race :
    (FetchContentBlocks multiPageEnv testConfig 1 [0, 0, 0, 1, 1, 1] seededCache pagedRequest).1
        = Outcome.returned ([block1, block2, block3], none) ∧
      (FetchContentBlocks multiPageEnv testConfig 1 [0, 1, 0, 1] seededCache pagedRequest).1
        = Outcome.returned ([block3, block3], none) ∧
      (pageRequests
        (FetchContentBlocks multiPageEnv testConfig 1 [0, 1, 0, 1] seededCache
          pagedRequest).2.2).map (fun r => r.page) = [1, 2, 2] ∧
      ¬ List.Perm [block3, block3] [block1, block2, block3] := by
  decide

/-- C3: `FetchContentBlocks` returns a non-nil error exactly when obtaining the
token fails or the first-page fetch fails; then the returned slice is nil and
no request for a page other than page 1 was sent.  Whatever the later page
fetches do, the error stays nil. -/
theorem FetchContentBlocks_error_iff (env : Env) (cfg : Config) (now : Int)
    (schedule : List Nat) (cache : Cache) (request : ContentBlocksRequest) :
    ((∃ blocks err, (FetchContentBlocks env cfg now schedule cache request).1
          = Outcome.returned (blocks, some err)) ↔
        ((fetchAccessToken env cfg now cache).1.2 ≠ none ∨
          ((fetchAccessToken env cfg now cache).1.2 = none ∧
            (firstPage env cfg now cache request).1.2 ≠ none))) ∧
      (∀ blocks err, (FetchContentBlocks env cfg now schedule cache request).1
          = Outcome.returned (blocks, some err) →
        blocks = [] ∧
          ∀ r ∈ pageRequests (FetchContentBlocks env cfg now schedule cache request).2.2,
            r.page = 1) := by
  rcases FetchContentBlocks_cases env cfg now schedule cache request with
    ⟨e, h1, heq⟩ | ⟨h1, ⟨e, h2, heq⟩ | ⟨h2, ⟨h3, heq⟩ | ⟨n, h3, ⟨hn, heq⟩ | ⟨hn, heq⟩⟩⟩⟩
  · rw [heq]
    refine ⟨⟨fun _ => Or.inl (by rw [h1]; simp), fun _ => ⟨_, _, rfl⟩⟩, ?_⟩
    intro blocks err h
    simp only [Outcome.returned.injEq, Prod.mk.injEq] at h
    refine ⟨h.1.symm, ?_⟩
    rw [fetchAccessToken_pageRequests]
    intro r hr
    simp at hr
  · rw [heq]
    refine ⟨⟨fun _ => Or.inr ⟨h1, by rw [h2]; simp⟩, fun _ => ⟨_, _, rfl⟩⟩, ?_⟩
    intro blocks err h
    simp only [Outcome.returned.injEq, Prod.mk.injEq] at h
    refine ⟨h.1.symm, ?_⟩
    intro r hr
    rcases firstPage_pageRequests env cfg now cache request with e1 | e1
    · rw [e1] at hr; simp at hr
    · rw [e1] at hr
      simp at hr
      rw [hr]
  · rw [heq]
    refine ⟨⟨fun ⟨_, _, h⟩ => by simp at h, fun h => ?_⟩, fun _ _ h => by simp at h⟩
    rcases h with h | ⟨_, h⟩
    · exact absurd h1 h
    · exact absurd h2 h
  · rw [heq]
    refine ⟨⟨fun ⟨_, _, h⟩ => by simp at h, fun h => ?_⟩, fun _ _ h => by simp at h⟩
    rcases h with h | ⟨_, h⟩
    · exact absurd h1 h
    · exact absurd h2 h
  · rw [heq]
    refine ⟨⟨fun ⟨_, _, h⟩ => by simp at h, fun h => ?_⟩, fun _ _ h => by simp at h⟩
    rcases h with h | ⟨_, h⟩
    · exact absurd h1 h
    · exact absurd h2 h

/-- Witness of `FetchContentBlocks_error_iff`: the test "Error - Fetching
First Page", whose server answers status 500. -/
theorem FetchContentBlocks_error_iff_witness :
    ([] : List ContentBlock) = [] ∧
      ∀ r ∈ pageRequests
          (FetchContentBlocks failingEnv testConfig 1 [] seededCache
            ContentBlocksRequest.zero).2.2,
        r.page = 1 :=
  (FetchContentBlocks_error_iff failingEnv testConfig 1 [] seededCache
    ContentBlocksRequest.zero).2 []
    "failed to fetch first page of assets: failed to fetch assets, status code: 500"
    (by decide)

/-- A call that returns without error went through the fan-out. -/
theorem FetchContentBlocks_returned_ok (env : Env) (cfg : Config) (now : Int)
    (schedule : List Nat) (cache : Cache) (request : ContentBlocksRequest)
    (blocks : List ContentBlock)
    (h : (FetchContentBlocks env cfg now schedule cache request).1
      = Outcome.returned (blocks, none)) :
    (fetchAccessToken env cfg now cache).1.2 = none ∧
      (firstPage env cfg now cache request).1.2 = none ∧
      ∃ n : Int, 0 ≤ n ∧
        totalPages (firstPage env cfg now cache request).1.1.count
          (firstPage env cfg now cache request).1.1.pageSize = some n ∧
        FetchContentBlocks env cfg now schedule cache request
          = (Outcome.returned
              ((fanOut env (fetchAccessToken env cfg now cache).1.1.restInstanceURL
                (fetchAccessToken env cfg now cache).1.1.accessToken schedule
                { request with page := 1 }
                (firstPage env cfg now cache request).2 n.toNat).chan.flatten, none),
              (fetchAccessToken env cfg now cache).2.1,
              (fanOut env (fetchAccessToken env cfg now cache).1.1.restInstanceURL
                (fetchAccessToken env cfg now cache).1.1.accessToken schedule
                { request with page := 1 }
                (firstPage env cfg now cache request).2 n.toNat).trace) := by
  rcases FetchContentBlocks_cases env cfg now schedule cache request with
    ⟨e, h1, heq⟩ | ⟨h1, ⟨e, h2, heq⟩ | ⟨h2, ⟨h3, heq⟩ | ⟨n, h3, ⟨hn, heq⟩ | ⟨hn, heq⟩⟩⟩⟩
  · rw [heq] at h; simp at h
  · rw [heq] at h; simp at h
  · rw [heq] at h; simp at h
  · rw [heq] at h; simp at h
  · exact ⟨h1, h2, n, hn, h3, heq⟩

/-- C4 (amended): in every run of `FetchContentBlocks` that returns without
error, the response of the initial page-1 fetch is not reused for the
aggregate: the returned slice is the concatenation of the slices that the
goroutines of the fan-out sent on the channel, one goroutine for every page
`1..totalPages`, page 1 included, each sending one slice.  The fan-out sends
`totalPages` page requests, so the run sends `1 + totalPages` in all. -/
theorem FetchContentBlocks_request_count (env : Env) (cfg : Config) (now : Int)
    (schedule : List Nat) (cache : Cache) (request : ContentBlocksRequest)
    (blocks : List ContentBlock)
    (h : (FetchContentBlocks env cfg now schedule cache request).1
      = Outcome.returned (blocks, none)) :
    ∃ n : Int, totalPages (firstPage env cfg now cache request).1.1.count
          (firstPage env cfg now cache request).1.1.pageSize = some n ∧
      0 ≤ n ∧
      FetchContentBlocks env cfg now schedule cache request
        = (Outcome.returned
            ((fanOut env (fetchAccessToken env cfg now cache).1.1.restInstanceURL
              (fetchAccessToken env cfg now cache).1.1.accessToken schedule
              { request with page := 1 }
              (firstPage env cfg now cache request).2 n.toNat).chan.flatten, none),
            (fetchAccessToken env cfg now cache).2.1,
            (fanOut env (fetchAccessToken env cfg now cache).1.1.restInstanceURL
              (fetchAccessToken env cfg now cache).1.1.accessToken schedule
              { request with page := 1 }
              (firstPage env cfg now cache request).2 n.toNat).trace) ∧
      (fanOut env (fetchAccessToken env cfg now cache).1.1.restInstanceURL
          (fetchAccessToken env cfg now cache).1.1.accessToken schedule
          { request with page := 1 }
          (firstPage env cfg now cache request).2 n.toNat).tasks.map (fun g => g.page)
        = (List.range n.toNat).map (fun (i : Nat) => (i : Int) + 1) ∧
      (fanOut env (fetchAccessToken env cfg now cache).1.1.restInstanceURL
          (fetchAccessToken env cfg now cache).1.1.accessToken schedule
          { request with page := 1 }
          (firstPage env cfg now cache request).2 n.toNat).chan.length = n.toNat ∧
      ((pageRequests (FetchContentBlocks env cfg now schedule cache request).2.2).length : Int)
        = 1 + n := by
  obtain ⟨_, h2, n, hn, h3, heq⟩ :=
    FetchContentBlocks_returned_ok env cfg now schedule cache request blocks h
  obtain ⟨hurl, hfirst⟩ := firstPage_ok_pageRequests env cfg now cache request h2
  have htasks := fanOut_tasks env (fetchAccessToken env cfg now cache).1.1.restInstanceURL
    (fetchAccessToken env cfg now cache).1.1.accessToken schedule { request with page := 1 }
    (firstPage env cfg now cache request).2 n.toNat
  refine ⟨n, h3, hn, heq, htasks.1, htasks.2, ?_⟩
  rw [heq]
  simp only
  rw [fanOut_count env _ _ schedule _ _ _ hurl, hfirst]
  simp only [List.length_singleton]
  push_cast
  rw [Int.toNat_of_nonneg hn]

/-- Witness of `FetchContentBlocks_request_count`: the test "Success - Multiple
Pages", with its two goroutines run one after the other. -/
theorem FetchContentBlocks_request_count_witness :
    ∃ n : Int, totalPages
          (firstPage multiPageEnv testConfig 1 seededCache pagedRequest).1.1.count
          (firstPage multiPageEnv testConfig 1 seededCache pagedRequest).1.1.pageSize = some n ∧
      (FetchContentBlocks multiPageEnv testConfig 1 [0, 0, 0, 1, 1, 1] seededCache
          pagedRequest).1
        = Outcome.returned
            ((fanOut multiPageEnv
              (fetchAccessToken multiPageEnv testConfig 1 seededCache).1.1.restInstanceURL
              (fetchAccessToken multiPageEnv testConfig 1 seededCache).1.1.accessToken
              [0, 0, 0, 1, 1, 1] { pagedRequest with page := 1 }
              (firstPage multiPageEnv testConfig 1 seededCache pagedRequest).2
              n.toNat).chan.flatten, none) ∧
      ((pageRequests (FetchContentBlocks multiPageEnv testConfig 1 [0, 0, 0, 1, 1, 1]
          seededCache pagedRequest).2.2).length : Int) = 1 + n :=
  (FetchContentBlocks_request_count multiPageEnv testConfig 1 [0, 0, 0, 1, 1, 1] seededCache
    pagedRequest [block1, block2, block3] (by decide)).elim
    (fun n hn => ⟨n, hn.1, congrArg Prod.fst hn.2.2.1, hn.2.2.2.2.2⟩)

/-- C4 (counterexample): a server with `count = 2`, `pageSize = 10`, hence
`totalPages = 1`, that answers the first page request with Block 1 and Block 2
and the second with Block 3.  Page 1 is requested twice, not
`max(1, totalPages) = 1` times, and the call returns Block 3 alone: the
response of the initial page-1 fetch is not reused. -/
theorem FetchContentBlocks_page1_twice :
    (firstPage changingSinglePageEnv testConfig 1 seededCache singlePageRequest).1
        = (⟨2, 1, 10, [block1, block2]⟩, none) ∧
      totalPages 2 10 = some 1 ∧
      (FetchContentBlocks changingSinglePageEnv testConfig 1 [] seededCache
        singlePageRequest).1 = Outcome.returned ([block3], none) ∧
      (pageRequests (FetchContentBlocks changingSinglePageEnv testConfig 1 [] seededCache
        singlePageRequest).2.2).map (fun r => r.page) = [1, 1] ∧
      ¬ (((pageRequests (FetchContentBlocks changingSinglePageEnv testConfig 1 [] seededCache
        singlePageRequest).2.2).length : Int) = max 1 1) := by
  decide

/-- C5 (amended): when the token and the initial page-1 fetch are obtained and
`totalPages = 1`, the call fetches page 1 a second time and returns, with a
nil error, the items of that second response in their order, or no item when
the second fetch fails; when `totalPages = 0` it sends no further request and
returns no item, with a nil error. -/
theorem FetchContentBlocks_single_page (env : Env) (cfg : Config) (now : Int)
    (schedule : List Nat) (cache : Cache) (request : ContentBlocksRequest)
    (htok : (fetchAccessToken env cfg now cache).1.2 = none)
    (hfirst : (firstPage env cfg now cache request).1.2 = none) :
    (totalPages (firstPage env cfg now cache request).1.1.count
          (firstPage env cfg now cache request).1.1.pageSize = some 1 →
        (FetchContentBlocks env cfg now schedule cache request).1
          = Outcome.returned
              ((if (fetchSingleAssetPage env
                      (fetchAccessToken env cfg now cache).1.1.restInstanceURL
                      (fetchAccessToken env cfg now cache).1.1.accessToken
                      { request with page := 1 }
                      (firstPage env cfg now cache request).2).1.2 = none
                then (fetchSingleAssetPage env
                      (fetchAccessToken env cfg now cache).1.1.restInstanceURL
                      (fetchAccessToken env cfg now cache).1.1.accessToken
                      { request with page := 1 }
                      (firstPage env cfg now cache request).2).1.1.items
                else []), none)) ∧
      (totalPages (firstPage env cfg now cache request).1.1.count
          (firstPage env cfg now cache request).1.1.pageSize = some 0 →
        FetchContentBlocks env cfg now schedule cache request
          = (Outcome.returned ([], none), (fetchAccessToken env cfg now cache).2.1,
              (firstPage env cfg now cache request).2)) := by
  rcases FetchContentBlocks_cases env cfg now schedule cache request with
    ⟨e, h1, heq⟩ | ⟨h1, ⟨e, h2, heq⟩ | ⟨h2, ⟨h3, heq⟩ | ⟨n, h3, ⟨hn, heq⟩ | ⟨hn, heq⟩⟩⟩⟩
  · rw [htok] at h1; simp at h1
  · rw [hfirst] at h2; simp at h2
  · rw [h3]; simp
  · rw [h3]
    constructor <;> intro h <;> simp at h <;> omega
  · rw [h3, heq]
    constructor
    · intro h
      simp only [Option.some.injEq] at h
      subst h
      have h1' : (1 : Int).toNat = 1 := rfl
      simp only [h1']
      rw [(fanOut_one env _ _ schedule { request with page := 1 } _).1]
      simp
    · intro h
      simp only [Option.some.injEq] at h
      subst h
      have h0 : (0 : Int).toNat = 0 := rfl
      simp only [h0]
      rw [fanOut_zero]
      rfl

/-- Witness of `FetchContentBlocks_single_page`: the test "Success - Single
Page". -/
theorem FetchContentBlocks_single_page_witness :
    (FetchContentBlocks singlePageEnv testConfig 1 [] seededCache singlePageRequest).1
      = Outcome.returned
          ((if (fetchSingleAssetPage singlePageEnv
                  (fetchAccessToken singlePageEnv testConfig 1 seededCache).1.1.restInstanceURL
                  (fetchAccessToken singlePageEnv testConfig 1 seededCache).1.1.accessToken
                  { singlePageRequest with page := 1 }
                  (firstPage singlePageEnv testConfig 1 seededCache singlePageRequest).2).1.2 = none
            then (fetchSingleAssetPage singlePageEnv
                  (fetchAccessToken singlePageEnv testConfig 1 seededCache).1.1.restInstanceURL
                  (fetchAccessToken singlePageEnv testConfig 1 seededCache).1.1.accessToken
                  { singlePageRequest with page := 1 }
                  (firstPage singlePageEnv testConfig 1 seededCache singlePageRequest).2).1.1.items
            else []), none) :=
  (FetchContentBlocks_single_page singlePageEnv testConfig 1 [] seededCache singlePageRequest
    (by decide) (by decide)).1 (by decide)

/-- C5 (counterexample): the initial page-1 fetch succeeds with two items and
`totalPages = 1`, the second request for page 1 fails: the call returns no item
at all, not the two items of the page-1 response. -/
theorem FetchContentBlocks_refetch_lost :
    (firstPage flakySinglePageEnv testConfig 1 seededCache singlePageRequest).1
        = (⟨2, 1, 10, [block1, block2]⟩, none) ∧
      totalPages 2 10 = some 1 ∧
      (FetchContentBlocks flakySinglePageEnv testConfig 1 [] seededCache singlePageRequest).1
        = Outcome.returned ([], none) := by
  decide

/-- Every page request of a call agrees with the caller's request outside the
page number, however the call ends. -/
theorem FetchContentBlocks_frame (env : Env) (cfg : Config) (now : Int)
    (schedule : List Nat) (cache : Cache) (request : ContentBlocksRequest) :
    ∀ r ∈ pageRequests (FetchContentBlocks env cfg now schedule cache request).2.2,
      sameFrame r request := by
  have hone : sameFrame { request with page := 1 } request := ⟨rfl, rfl, rfl, rfl⟩
  have hfirst : ∀ r ∈ pageRequests (firstPage env cfg now cache request).2,
      sameFrame r request := by
    intro r hr
    rcases firstPage_pageRequests env cfg now cache request with e1 | e1
    · rw [e1] at hr; simp at hr
    · rw [e1] at hr
      simp at hr
      rw [hr]; exact hone
  rcases FetchContentBlocks_cases env cfg now schedule cache request with
    ⟨e, h1, heq⟩ | ⟨h1, ⟨e, h2, heq⟩ | ⟨h2, ⟨h3, heq⟩ | ⟨n, h3, ⟨hn, heq⟩ | ⟨hn, heq⟩⟩⟩⟩
  · rw [heq]
    simp only
    rw [fetchAccessToken_pageRequests]
    intro r hr
    simp at hr
  · rw [heq]; exact hfirst
  · rw [heq]; exact hfirst
  · rw [heq]; exact hfirst
  · rw [heq]
    exact fanOut_frame env _ _ schedule _ request _ _ hone hfirst

/-- C10 (amended): for every run, every page request, the initial one and
those of the fan-out alike, carries the `page.pageSize` of the caller's
request; the `pageSize` field of the page-1 response is used to compute
`totalPages` only. -/
theorem FetchContentBlocks_pageSize (env : Env) (cfg : Config) (now : Int)
    (schedule : List Nat) (cache : Cache) (request : ContentBlocksRequest) :
    ∀ r ∈ pageRequests (FetchContentBlocks env cfg now schedule cache request).2.2,
      r.pageSize = request.pageSize :=
  fun r hr => (FetchContentBlocks_frame env cfg now schedule cache request r hr).1

/-- C10 (counterexample): the scheduler's zero-valued request against a server
whose page-1 response says `pageSize = 2`: the two requests of the fan-out
carry `pageSize = 0`, not 2. -/
theorem FetchContentBlocks_pageSize_not_from_response :
    (firstPage multiPageEnv testConfig 1 seededCache ContentBlocksRequest.zero).1
        = (⟨3, 1, 2, [block1, block2]⟩, none) ∧
      (pageRequests (FetchContentBlocks multiPageEnv testConfig 1 [0, 0, 0, 1, 1, 1]
        seededCache ContentBlocksRequest.zero).2.2).map (fun r => (r.page, r.pageSize))
        = [(1, 0), (1, 0), (2, 0)] := by
  decide

/-- Witness of `FetchContentBlocks_pageSize`: the second request of the
scheduler's run against the multi-page server. -/
theorem FetchContentBlocks_pageSize_witness :
    ({ ContentBlocksRequest.zero with page := 1 } : ContentBlocksRequest).pageSize
      = ContentBlocksRequest.zero.pageSize :=
  FetchContentBlocks_pageSize multiPageEnv testConfig 1 [0, 0, 0, 1, 1, 1] seededCache
    ContentBlocksRequest.zero { ContentBlocksRequest.zero with page := 1 } (by decide)

/-! ## Claims on the scheduler -/

/-- C12: `fetchAndSyncContentBlocks` calls the fetcher exactly once, with the
zero-valued request.  If the fetch returns an error, it returns that error
behind "failed to fetch content blocks: " and never calls the uploader.  If
the fetch succeeds, it calls the uploader exactly once, with exactly the
fetched slice, and returns nil if the upload succeeds, else the upload error
behind "failed to upload content blocks: ".  It returns nil exactly when both
stages succeed. -/
theorem fetchAndSyncContentBlocks_spec (fetcher : Fetcher) (uploader : Uploader) :
    fetchCalls (fetchAndSyncContentBlocks fetcher uploader).2 = [ContentBlocksRequest.zero] ∧
      (∀ blocks err, fetcher ContentBlocksRequest.zero = Outcome.returned (blocks, some err) →
        fetchAndSyncContentBlocks fetcher uploader
          = (Outcome.returned (some ("failed to fetch content blocks: " ++ err)),
              [Call.fetch ContentBlocksRequest.zero])) ∧
      (∀ blocks, fetcher ContentBlocksRequest.zero = Outcome.returned (blocks, none) →
        (fetchAndSyncContentBlocks fetcher uploader).2
            = [Call.fetch ContentBlocksRequest.zero, Call.upload blocks] ∧
          (uploader blocks = Outcome.returned none →
            (fetchAndSyncContentBlocks fetcher uploader).1 = Outcome.returned none) ∧
          (∀ err, uploader blocks = Outcome.returned (some err) →
            (fetchAndSyncContentBlocks fetcher uploader).1
              = Outcome.returned (some ("failed to upload content blocks: " ++ err)))) ∧
      ((fetchAndSyncContentBlocks fetcher uploader).1 = Outcome.returned none ↔
        ∃ blocks, fetcher ContentBlocksRequest.zero = Outcome.returned (blocks, none) ∧
          uploader blocks = Outcome.returned none) := by
  unfold fetchAndSyncContentBlocks
  cases hf : fetcher ContentBlocksRequest.zero with
  | returned res =>
    rcases res with ⟨blocks, err⟩
    cases err with
    | some e =>
      refine ⟨rfl, ?_, ?_, ?_⟩
      · intro b e2 h
        simp only [Outcome.returned.injEq, Prod.mk.injEq, Option.some.injEq] at h
        rw [h.2]
      · intro b h
        simp at h
      · simp
    | none =>
      simp only
      cases hu : uploader blocks with
      | returned uerr =>
        cases uerr with
        | some e =>
          refine ⟨rfl, ?_, ?_, ?_⟩
          · intro b e2 h; simp at h
          · intro b h
            simp only [Outcome.returned.injEq, Prod.mk.injEq, and_true] at h
            subst h
            rw [hu]
            refine ⟨rfl, ?_, ?_⟩
            · intro h2; simp at h2
            · intro e2 h2
              simp only [Outcome.returned.injEq, Option.some.injEq] at h2
              rw [h2]
          · constructor
            · intro h; simp at h
            · rintro ⟨b, h1, h2⟩
              simp only [Outcome.returned.injEq, Prod.mk.injEq, and_true] at h1
              subst h1
              rw [hu] at h2
              simp at h2
        | none =>
          refine ⟨rfl, ?_, ?_, ?_⟩
          · intro b e2 h; simp at h
          · intro b h
            simp only [Outcome.returned.injEq, Prod.mk.injEq, and_true] at h
            subst h
            rw [hu]
            refine ⟨rfl, fun _ => rfl, ?_⟩
            intro e2 h2; simp at h2
          · constructor
            · intro _; exact ⟨blocks, rfl, hu⟩
            · intro _; rfl
      | panicked =>
        refine ⟨rfl, ?_, ?_, ?_⟩
        · intro b e2 h; simp at h
        · intro b h
          simp only [Outcome.returned.injEq, Prod.mk.injEq, and_true] at h
          subst h
          rw [hu]
          refine ⟨rfl, ?_, ?_⟩
          · intro h2; simp at h2
          · intro e2 h2; simp at h2
        · constructor
          · intro h; simp at h
          · rintro ⟨b, h1, h2⟩
            simp only [Outcome.returned.injEq, Prod.mk.injEq, and_true] at h1
            subst h1
            rw [hu] at h2
            simp at h2
      | implementationDependent =>
        refine ⟨rfl, ?_, ?_, ?_⟩
        · intro b e2 h; simp at h
        · intro b h
          simp only [Outcome.returned.injEq, Prod.mk.injEq, and_true] at h
          subst h
          rw [hu]
          refine ⟨rfl, ?_, ?_⟩
          · intro h2; simp at h2
          · intro e2 h2; simp at h2
        · constructor
          · intro h; simp at h
          · rintro ⟨b, h1, h2⟩
            simp only [Outcome.returned.injEq, Prod.mk.injEq, and_true] at h1
            subst h1
            rw [hu] at h2
            simp at h2
  | panicked =>
    refine ⟨rfl, ?_, ?_, ?_⟩
    · intro b e h; simp at h
    · intro b h; simp at h
    · simp
  | implementationDependent =>
    refine ⟨rfl, ?_, ?_, ?_⟩
    · intro b e h; simp at h
    · intro b h; simp at h
    · simp

/-- Witness of `fetchAndSyncContentBlocks_spec`: the Salesforce client of the
multi-page test feeding the local uploader, which is not implemented: the
fetch succeeds, the three blocks are handed over once, the upload error comes
back wrapped. -/
theorem fetchAndSyncContentBlocks_spec_witness :
    (fetchAndSyncContentBlocks multiPageFetcher localUploader).2
        = [Call.fetch ContentBlocksRequest.zero, Call.upload [block1, block2, block3]] ∧
      (fetchAndSyncContentBlocks multiPageFetcher localUploader).1
        = Outcome.returned (some ("failed to upload content blocks: " ++ "unimplemented")) :=
  have h := (fetchAndSyncContentBlocks_spec multiPageFetcher localUploader).2.2.1
    [block1, block2, block3] (by decide)
  ⟨h.1, h.2.2 "unimplemented" (by decide)⟩

/-! ## The page number of the fan-out requests -/

/-- C11 (the code at the failing input): three records in pages of two.  After
the steps "goroutine 1 writes, goroutine 2 writes, goroutine 1 fetches" the
goroutine started for page 1 has sent a request that carries `page.page = 2`
and holds Block 3.  Over the whole run the fan-out asks for the pages 2 and 2,
not for 1 and 2, while page size, query, sort and fields of every request are
those of the caller. -/
theorem fanOut_wrong_page :
    (runSchedule multiPageEnv "https://rest.example" "testAccessToken" [0, 1, 0]
        (FanOut.mk { pagedRequest with page := 1 } [] [] (spawn 2))).tasks[0]?
        = some ⟨1, 2, [block3]⟩ ∧
      pageRequests
        (runSchedule multiPageEnv "https://rest.example" "testAccessToken" [0, 1, 0]
          (FanOut.mk { pagedRequest with page := 1 } [] [] (spawn 2))).trace
        = [{ pagedRequest with page := 2 }] ∧
      pageRequests
        (FetchContentBlocks multiPageEnv testConfig 1 [0, 1, 0, 1] seededCache
          pagedRequest).2.2
        = [{ pagedRequest with page := 1 }, { pagedRequest with page := 2 },
            { pagedRequest with page := 2 }] ∧
      ¬ List.Perm [(2 : Int), 2] [1, 2] := by
  decide

/-! ## Concurrent callers of `fetchAccessToken`: general facts -/

/-- On a miss `fetchAccessToken` is its refresh part. -/
theorem fetchAccessToken_miss (env : Env) (cfg : Config) (now : Int) (cache : Cache)
    (h : (getCachedToken cache now).2 = false) :
    fetchAccessToken env cfg now cache = refreshToken env cfg now cache := by
  unfold fetchAccessToken refreshToken
  simp only [h]
  rfl

/-- On a hit `fetchAccessToken` returns what the look into the cache found. -/
theorem fetchAccessToken_hit (env : Env) (cfg : Config) (now : Int) (cache : Cache)
    (h : (getCachedToken cache now).2 = true) :
    fetchAccessToken env cfg now cache = (((getCachedToken cache now).1, none), cache, []) := by
  unfold fetchAccessToken
  simp only [h]
  rfl

theorem authRequests_append (a b : List Event) :
    authRequests (a ++ b) = authRequests a + authRequests b := by
  induction a with
  | nil => simp [authRequests]
  | cons e t ih =>
    cases e with
    | authRequest u b => simp [authRequests, ih]; omega
    | cacheSet k v d => simp [authRequests, ih]
    | pageRequest u a b => simp [authRequests, ih]

/-- When the token request can be built, a refresh sends exactly one. -/
theorem refreshToken_authRequests (env : Env) (cfg : Config) (now : Int) (cache : Cache)
    (hurl : env.newRequestErr (cfg.authURL ++ "/v2/token") = none) :
    authRequests (refreshToken env cfg now cache).2.2 = 1 := by
  unfold refreshToken
  simp only [hurl]
  cases env.authDo (cfg.authURL ++ "/v2/token")
      ⟨"client_credentials", cfg.clientID, cfg.clientSecret⟩ with
  | transportError msg => rfl
  | response status body =>
    simp only
    split_ifs
    · rfl
    · rfl
    · cases body with
      | none => rfl
      | some tr =>
        simp only
        split_ifs <;> rfl

/-- The Go results of a refresh do not depend on the cache. -/
theorem refreshToken_result (env : Env) (cfg : Config) (now : Int) (c1 c2 : Cache) :
    (refreshToken env cfg now c1).1 = (refreshToken env cfg now c2).1 := by
  unfold refreshToken
  simp only
  cases env.newRequestErr (cfg.authURL ++ "/v2/token") with
  | some msg => rfl
  | none =>
    cases env.authDo (cfg.authURL ++ "/v2/token")
        ⟨"client_credentials", cfg.clientID, cfg.clientSecret⟩ with
    | transportError msg => rfl
    | response status body =>
      simp only
      split_ifs
      · rfl
      · rfl
      · cases body with
        | none => rfl
        | some tr =>
          simp only
          split_ifs <;> rfl

theorem stepCaller_none (env : Env)
    (auth : Nat → String → TokenRequest → HttpResult TokenResponse) (cfg : Config)
    (now : Int) (s : Callers) (i : Nat)
    (h : s.callers[i]? = none) : stepCaller env auth cfg now s i = s := by
  unfold stepCaller
  rw [h]

/-- The four cases of a step of an existing caller. -/
theorem stepCaller_cases (env : Env)
    (auth : Nat → String → TokenRequest → HttpResult TokenResponse) (cfg : Config)
    (now : Int) (s : Callers) (i : Nat) (c : Caller) (h : s.callers[i]? = some c) :
    (c.pc = 0 ∧ (getCachedToken s.cache now).2 = true ∧
        stepCaller env auth cfg now s i
          = Callers.mk s.cache s.trace
              (s.callers.set i ⟨2, false, c.sent, ((getCachedToken s.cache now).1, none)⟩)) ∨
    (c.pc = 0 ∧ (getCachedToken s.cache now).2 = false ∧
        stepCaller env auth cfg now s i
          = Callers.mk s.cache s.trace (s.callers.set i ⟨1, true, c.sent, c.result⟩)) ∨
    (c.pc = 1 ∧
        stepCaller env auth cfg now s i
          = Callers.mk
              (refreshToken (envAt env auth (authRequests s.trace)) cfg now s.cache).2.1
              (s.trace
                ++ (refreshToken (envAt env auth (authRequests s.trace)) cfg now s.cache).2.2)
              (s.callers.set i ⟨2, c.missed, authRequests s.trace,
                (refreshToken (envAt env auth (authRequests s.trace)) cfg now s.cache).1⟩)) ∨
    (2 ≤ c.pc ∧ stepCaller env auth cfg now s i = s) := by
  unfold stepCaller
  rw [h]
  rcases c with ⟨pc, missed, sent, result⟩
  match pc with
  | 0 =>
    by_cases hc : (getCachedToken s.cache now).2 = true
    · left; exact ⟨rfl, hc, by simp [hc]⟩
    · have hf : (getCachedToken s.cache now).2 = false := by simpa using hc
      right; left; exact ⟨rfl, hf, by simp [hf]⟩
  | 1 => right; right; left; exact ⟨rfl, rfl⟩
  | n + 2 => right; right; right; exact ⟨by simp, rfl⟩

theorem runCallers_invariant (env : Env)
    (auth : Nat → String → TokenRequest → HttpResult TokenResponse) (cfg : Config)
    (now : Int) (P : Callers → Prop)
    (hstep : ∀ s i, P s → P (stepCaller env auth cfg now s i)) (schedule : List Nat) :
    ∀ s, P s → P (runCallers env auth cfg now schedule s) := by
  induction schedule with
  | nil => intro s h; exact h
  | cons i rest ih =>
    intro s h
    exact ih (stepCaller env auth cfg now s i) (hstep s i h)

theorem waitCallers_invariant (env : Env)
    (auth : Nat → String → TokenRequest → HttpResult TokenResponse) (cfg : Config)
    (now : Int) (P : Callers → Prop)
    (hstep : ∀ s i, P s → P (stepCaller env auth cfg now s i)) (s : Callers) (h : P s) :
    P (waitCallers env auth cfg now s) := by
  unfold waitCallers
  generalize List.range s.callers.length = l
  induction l generalizing s with
  | nil => exact h
  | cons i rest ih => exact ih _ (hstep _ i (hstep _ i h))

theorem stepCaller_length (env : Env)
    (auth : Nat → String → TokenRequest → HttpResult TokenResponse) (cfg : Config)
    (now : Int) (s : Callers) (i : Nat) :
    (stepCaller env auth cfg now s i).callers.length = s.callers.length := by
  cases h : s.callers[i]? with
  | none => rw [stepCaller_none env auth cfg now s i h]
  | some c =>
    rcases stepCaller_cases env auth cfg now s i c h with
      ⟨_, _, he⟩ | ⟨_, _, he⟩ | ⟨_, he⟩ | ⟨_, he⟩ <;> rw [he] <;> simp

/-- A step leaves the other callers alone. -/
theorem stepCaller_other (env : Env)
    (auth : Nat → String → TokenRequest → HttpResult TokenResponse) (cfg : Config)
    (now : Int) (s : Callers) (i j : Nat)
    (hij : i ≠ j) : (stepCaller env auth cfg now s i).callers[j]? = s.callers[j]? := by
  cases h : s.callers[i]? with
  | none => rw [stepCaller_none env auth cfg now s i h]
  | some c =>
    rcases stepCaller_cases env auth cfg now s i c h with
      ⟨_, _, he⟩ | ⟨_, _, he⟩ | ⟨_, he⟩ | ⟨_, he⟩ <;> rw [he] <;> simp [hij]

/-- A step moves its caller forward, up to its return. -/
theorem stepCaller_self (env : Env)
    (auth : Nat → String → TokenRequest → HttpResult TokenResponse) (cfg : Config)
    (now : Int) (s : Callers) (i : Nat)
    (c : Caller) (h : s.callers[i]? = some c) :
    ∃ c1, (stepCaller env auth cfg now s i).callers[i]? = some c1 ∧
      (c.pc + 1 ≤ c1.pc ∨ 2 ≤ c1.pc) := by
  have hi : i < s.callers.length := (List.getElem?_eq_some_iff.mp h).1
  rcases stepCaller_cases env auth cfg now s i c h with
    ⟨hp, _, he⟩ | ⟨hp, _, he⟩ | ⟨hp, he⟩ | ⟨hp, he⟩
  · rw [he]; exact ⟨_, List.getElem?_set_self hi, Or.inr (le_refl 2)⟩
  · rw [he]; exact ⟨_, List.getElem?_set_self hi, Or.inl (by simp [hp])⟩
  · rw [he]; exact ⟨_, List.getElem?_set_self hi, Or.inr (le_refl 2)⟩
  · rw [he]; exact ⟨c, h, Or.inr hp⟩

/-- After the wait every caller has returned. -/
theorem waitCallers_done (env : Env)
    (auth : Nat → String → TokenRequest → HttpResult TokenResponse) (cfg : Config)
    (now : Int) (s : Callers) :
    ∀ c ∈ (waitCallers env auth cfg now s).callers, 2 ≤ c.pc := by
  have stays : ∀ (s0 : Callers) (i j : Nat),
      (∀ c, s0.callers[j]? = some c → 2 ≤ c.pc) →
      ∀ c, (stepCaller env auth cfg now s0 i).callers[j]? = some c → 2 ≤ c.pc := by
    intro s0 i j hj c hc
    by_cases hij : i = j
    · subst hij
      have hi : i < s0.callers.length := by
        have := (List.getElem?_eq_some_iff.mp hc).1
        rw [stepCaller_length] at this; exact this
      have h0 : s0.callers[i]? = some s0.callers[i] := List.getElem?_eq_getElem hi
      obtain ⟨c1, hc1, hpc⟩ := stepCaller_self env auth cfg now s0 i _ h0
      rw [hc1] at hc
      cases hc
      have := hj _ h0
      omega
    · rw [stepCaller_other env auth cfg now s0 i j hij] at hc
      exact hj c hc
  have two : ∀ (s0 : Callers) (i : Nat) (c : Caller),
      (stepCaller env auth cfg now (stepCaller env auth cfg now s0 i) i).callers[i]? = some c →
      2 ≤ c.pc := by
    intro s0 i c hc
    have hi : i < s0.callers.length := by
      have := (List.getElem?_eq_some_iff.mp hc).1
      rw [stepCaller_length, stepCaller_length] at this; exact this
    have h0 : s0.callers[i]? = some s0.callers[i] := List.getElem?_eq_getElem hi
    obtain ⟨c1, hc1, h1⟩ := stepCaller_self env auth cfg now s0 i _ h0
    obtain ⟨c2, hc2, h2⟩ := stepCaller_self env auth cfg now _ i c1 hc1
    rw [hc2] at hc
    cases hc
    omega
  have key : ∀ k, ∀ s0 : Callers, ∀ j, j < k → ∀ c,
      ((List.range k).foldl
        (fun s i => stepCaller env auth cfg now (stepCaller env auth cfg now s i) i) s0).callers[j]?
        = some c → 2 ≤ c.pc := by
    intro k
    induction k with
    | zero => intro s0 j hj; omega
    | succ k ih =>
      intro s0 j hj c hc
      rw [List.range_succ, List.foldl_append] at hc
      simp only [List.foldl_cons, List.foldl_nil] at hc
      by_cases hjk : j = k
      · subst hjk
        exact two _ j c hc
      · exact stays _ k j (stays _ k j (ih s0 j (by omega))) c hc
  have hlen : (waitCallers env auth cfg now s).callers.length = s.callers.length :=
    waitCallers_invariant env auth cfg now (fun x => x.callers.length = s.callers.length)
      (fun x i hx => (stepCaller_length env auth cfg now x i).trans hx) s rfl
  intro c hc
  obtain ⟨j, hj, hcj⟩ := List.getElem_of_mem hc
  apply key s.callers.length s j (by omega) c
  have : (waitCallers env auth cfg now s).callers[j]? = some c := by
    rw [List.getElem?_eq_getElem hj, hcj]
  exact this


/-- When the token request can be built, every step keeps `callersInv`. -/
theorem stepCaller_inv (env : Env)
    (auth : Nat → String → TokenRequest → HttpResult TokenResponse) (cfg : Config)
    (now : Int) (cache0 : Cache)
    (hurl : env.newRequestErr (cfg.authURL ++ "/v2/token") = none) (s : Callers) (i : Nat)
    (h : callersInv env auth cfg now cache0 s) :
    callersInv env auth cfg now cache0 (stepCaller env auth cfg now s i) := by
  obtain ⟨hcount, hall, hdist⟩ := h
  cases hg : s.callers[i]? with
  | none => rw [stepCaller_none env auth cfg now s i hg]; exact ⟨hcount, hall, hdist⟩
  | some c =>
    obtain ⟨hi, hci⟩ := List.getElem?_eq_some_iff.mp hg
    have hmem : c ∈ s.callers := by rw [← hci]; exact List.getElem_mem hi
    have old : ∀ (j : Nat) (cj a : Caller), i ≠ j → (s.callers.set i a)[j]? = some cj →
        s.callers[j]? = some cj ∧ cj ∈ s.callers := by
      intro j cj a hij hj
      rw [List.getElem?_set_ne hij] at hj
      obtain ⟨hj1, hj2⟩ := List.getElem?_eq_some_iff.mp hj
      exact ⟨hj, by rw [← hj2]; exact List.getElem_mem hj1⟩
    have new : ∀ (cj a : Caller), (s.callers.set i a)[i]? = some cj → cj = a := by
      intro cj a hj
      rw [List.getElem?_set_self hi] at hj
      exact (Option.some.inj hj).symm
    rcases stepCaller_cases env auth cfg now s i c hg with
      ⟨hp, _, he⟩ | ⟨hp, _, he⟩ | ⟨hp, he⟩ | ⟨hp, he⟩
    · -- the look into the cache is a hit
      rw [he]
      refine ⟨?_, ?_, ?_⟩
      · simp only
        rw [List.countP_set _ _ _ _ hi, hci, hcount]
        simp [hp]
      · intro c1 hc1
        rcases List.mem_or_eq_of_mem_set hc1 with hm | hm
        · exact hall c1 hm
        · subst hm; simp
      · intro j1 j2 c1 c2 hne h1 h2 hp1 hm1 hp2 hm2
        by_cases e1 : i = j1
        · subst e1
          have := new c1 _ h1
          subst this
          simp at hm1
        · by_cases e2 : i = j2
          · subst e2
            have := new c2 _ h2
            subst this
            simp at hm2
          · exact hdist j1 j2 c1 c2 hne (old j1 c1 _ e1 h1).1 (old j2 c2 _ e2 h2).1
              hp1 hm1 hp2 hm2
    · -- the look into the cache is a miss
      rw [he]
      refine ⟨?_, ?_, ?_⟩
      · simp only
        rw [List.countP_set _ _ _ _ hi, hci, hcount]
        simp [hp]
      · intro c1 hc1
        rcases List.mem_or_eq_of_mem_set hc1 with hm | hm
        · exact hall c1 hm
        · subst hm; simp
      · intro j1 j2 c1 c2 hne h1 h2 hp1 hm1 hp2 hm2
        by_cases e1 : i = j1
        · subst e1
          have := new c1 _ h1
          subst this
          simp at hp1
        · by_cases e2 : i = j2
          · subst e2
            have := new c2 _ h2
            subst this
            simp at hp2
          · exact hdist j1 j2 c1 c2 hne (old j1 c1 _ e1 h1).1 (old j2 c2 _ e2 h2).1
              hp1 hm1 hp2 hm2
    · -- the refresh
      rw [he]
      have hmiss : c.missed = true := (hall c hmem).1 hp
      have hreq : authRequests
          (s.trace ++ (refreshToken (envAt env auth (authRequests s.trace)) cfg now
            s.cache).2.2) = authRequests s.trace + 1 := by
        rw [authRequests_append,
          refreshToken_authRequests (envAt env auth (authRequests s.trace)) cfg now s.cache
            hurl]
      refine ⟨?_, ?_, ?_⟩
      · simp only
        rw [List.countP_set _ _ _ _ hi, hci, hreq, hcount]
        simp [hp, hmiss]
      · intro c1 hc1
        simp only
        rw [hreq]
        rcases List.mem_or_eq_of_mem_set hc1 with hm | hm
        · obtain ⟨a1, a2, a3⟩ := hall c1 hm
          refine ⟨a1, ?_, a3⟩
          intro hp1 hm1
          obtain ⟨b1, b2⟩ := a2 hp1 hm1
          exact ⟨by omega, b2⟩
        · subst hm
          refine ⟨by simp, fun _ _ => ⟨by simp, ?_⟩, ?_⟩
          · exact refreshToken_result (envAt env auth (authRequests s.trace)) cfg now
              s.cache cache0
          · intro hf
            simp only [hmiss] at hf
            exact absurd hf (by simp)
      · intro j1 j2 c1 c2 hne h1 h2 hp1 hm1 hp2 hm2
        simp only at h1 h2
        by_cases e1 : i = j1
        · subst e1
          have := new c1 _ h1
          subst this
          have e2 : i ≠ j2 := hne
          obtain ⟨_, hmem2⟩ := old j2 c2 _ e2 h2
          have := ((hall c2 hmem2).2.1 hp2 hm2).1
          simp only
          omega
        · by_cases e2 : i = j2
          · subst e2
            have := new c2 _ h2
            subst this
            obtain ⟨_, hmem1⟩ := old j1 c1 _ e1 h1
            have := ((hall c1 hmem1).2.1 hp1 hm1).1
            simp only
            omega
          · exact hdist j1 j2 c1 c2 hne (old j1 c1 _ e1 h1).1 (old j2 c2 _ e2 h2).1
              hp1 hm1 hp2 hm2
    · rw [he]; exact ⟨hcount, hall, hdist⟩

/-- When the cache holds no credential and every caller looks into it before
any refresh, every caller observes the miss. -/
theorem runCallers_lookups (env : Env)
    (auth : Nat → String → TokenRequest → HttpResult TokenResponse) (cfg : Config)
    (now : Int) (cache : Cache) (n : Nat) (hmiss : (getCachedToken cache now).2 = false) :
    ∀ k, k ≤ n →
      (runCallers env auth cfg now (List.range k)
          (Callers.mk cache [] (List.replicate n Caller.start))).cache = cache ∧
        (runCallers env auth cfg now (List.range k)
          (Callers.mk cache [] (List.replicate n Caller.start))).trace = [] ∧
        (runCallers env auth cfg now (List.range k)
          (Callers.mk cache [] (List.replicate n Caller.start))).callers.length = n ∧
        ∀ (j : Nat) (c : Caller),
          (runCallers env auth cfg now (List.range k)
            (Callers.mk cache [] (List.replicate n Caller.start))).callers[j]? = some c →
          (j < k → c.pc = 1 ∧ c.missed = true) ∧ (k ≤ j → c = Caller.start) := by
  intro k
  induction k with
  | zero =>
    intro _
    refine ⟨rfl, rfl, by simp [runCallers], ?_⟩
    intro j c hc
    refine ⟨fun h => by omega, fun _ => ?_⟩
    simp only [runCallers, List.range_zero, List.foldl_nil] at hc
    obtain ⟨_, hj2⟩ := List.getElem?_eq_some_iff.mp hc
    rw [← hj2]
    simp
  | succ k ih =>
    intro hk
    obtain ⟨hc0, ht0, hl0, hall⟩ := ih (by omega)
    have e : runCallers env auth cfg now (List.range (k + 1))
          (Callers.mk cache [] (List.replicate n Caller.start))
        = stepCaller env auth cfg now
            (runCallers env auth cfg now (List.range k)
              (Callers.mk cache [] (List.replicate n Caller.start))) k := by
      simp only [runCallers, List.range_succ, List.foldl_append, List.foldl_cons,
        List.foldl_nil]
    rw [e]
    generalize runCallers env auth cfg now (List.range k)
      (Callers.mk cache [] (List.replicate n Caller.start)) = s at hc0 ht0 hl0 hall
    have hk' : k < s.callers.length := by omega
    have hg : s.callers[k]? = some s.callers[k] := List.getElem?_eq_getElem hk'
    have hstart : s.callers[k] = Caller.start := (hall k _ hg).2 (le_refl k)
    rcases stepCaller_cases env auth cfg now s k _ hg with
      ⟨_, hhit, _⟩ | ⟨_, _, he⟩ | ⟨hp, _⟩ | ⟨hp, _⟩
    · rw [hc0, hmiss] at hhit; simp at hhit
    · rw [he]
      refine ⟨hc0, ht0, by simp [hl0], ?_⟩
      intro j c hc
      simp only at hc
      by_cases hjk : k = j
      · subst hjk
        rw [List.getElem?_set_self hk'] at hc
        have := Option.some.inj hc
        subst this
        exact ⟨fun _ => ⟨rfl, rfl⟩, fun h => by omega⟩
      · rw [List.getElem?_set_ne hjk] at hc
        obtain ⟨a1, a2⟩ := hall j c hc
        exact ⟨fun h => a1 (by omega), fun h => a2 (by omega)⟩
    · rw [hstart] at hp; simp [Caller.start] at hp
    · rw [hstart] at hp; simp [Caller.start] at hp

/-- Once every caller has observed the miss, every caller stays a caller that
missed. -/
theorem stepCaller_all_missed (env : Env)
    (auth : Nat → String → TokenRequest → HttpResult TokenResponse) (cfg : Config)
    (now : Int) (s : Callers) (i : Nat)
    (h : ∀ c ∈ s.callers, 1 ≤ c.pc ∧ c.missed = true) :
    ∀ c ∈ (stepCaller env auth cfg now s i).callers, 1 ≤ c.pc ∧ c.missed = true := by
  cases hg : s.callers[i]? with
  | none => rw [stepCaller_none env auth cfg now s i hg]; exact h
  | some c =>
    obtain ⟨hi, hci⟩ := List.getElem?_eq_some_iff.mp hg
    have hmem : c ∈ s.callers := by rw [← hci]; exact List.getElem_mem hi
    have hc := h c hmem
    rcases stepCaller_cases env auth cfg now s i c hg with
      ⟨hp, _, _⟩ | ⟨hp, _, _⟩ | ⟨hp, he⟩ | ⟨hp, he⟩
    · omega
    · omega
    · rw [he]
      intro c1 hc1
      rcases List.mem_or_eq_of_mem_set hc1 with hm | hm
      · exact h c1 hm
      · subst hm; exact ⟨by simp, hc.2⟩
    · rw [he]; exact h

/-- While the cache holds a credential and nothing is sent, every step keeps
it so: a caller has not started or has returned the cached credential. -/
theorem stepCaller_all_hit (env : Env)
    (auth : Nat → String → TokenRequest → HttpResult TokenResponse) (cfg : Config)
    (now : Int) (cache : Cache) (hhit : (getCachedToken cache now).2 = true) (s : Callers)
    (i : Nat)
    (h : s.cache = cache ∧ s.trace = [] ∧
      ∀ c ∈ s.callers, c.pc = 0 ∨
        (2 ≤ c.pc ∧ c.missed = false ∧ c.result = ((getCachedToken cache now).1, none))) :
    (stepCaller env auth cfg now s i).cache = cache ∧
      (stepCaller env auth cfg now s i).trace = [] ∧
      ∀ c ∈ (stepCaller env auth cfg now s i).callers, c.pc = 0 ∨
        (2 ≤ c.pc ∧ c.missed = false ∧ c.result = ((getCachedToken cache now).1, none)) := by
  obtain ⟨hc0, ht0, hall⟩ := h
  cases hg : s.callers[i]? with
  | none => rw [stepCaller_none env auth cfg now s i hg]; exact ⟨hc0, ht0, hall⟩
  | some c =>
    obtain ⟨hi, hci⟩ := List.getElem?_eq_some_iff.mp hg
    have hmem : c ∈ s.callers := by rw [← hci]; exact List.getElem_mem hi
    rcases stepCaller_cases env auth cfg now s i c hg with
      ⟨hp, _, he⟩ | ⟨hp, hm, _⟩ | ⟨hp, _⟩ | ⟨hp, he⟩
    · rw [he]
      refine ⟨hc0, ht0, ?_⟩
      intro c1 hc1
      rcases List.mem_or_eq_of_mem_set hc1 with hm | hm
      · exact hall c1 hm
      · subst hm
        right
        exact ⟨le_refl 2, rfl, by rw [hc0]⟩
    · rw [hc0, hhit] at hm; simp at hm
    · rcases hall c hmem with h0 | ⟨h2, _⟩ <;> omega
    · rw [he]; exact ⟨hc0, ht0, hall⟩

theorem stepCaller_single (env : Env)
    (auth : Nat → String → TokenRequest → HttpResult TokenResponse) (cfg : Config)
    (now : Int) (s : Callers) (c : Caller)
    (i : Nat) (h : s.callers = [c]) :
    ∃ c1, (stepCaller env auth cfg now s i).callers = [c1] ∧
      (i = 0 → (c.pc + 1 ≤ c1.pc ∨ 2 ≤ c1.pc)) := by
  cases i with
  | succ j =>
    have : s.callers[j + 1]? = none := by rw [h]; rfl
    rw [stepCaller_none env auth cfg now s (j + 1) this]
    exact ⟨c, h, fun hj => by omega⟩
  | zero =>
    have hg : s.callers[0]? = some c := by rw [h]; rfl
    obtain ⟨c1, hc1, hpc⟩ := stepCaller_self env auth cfg now s 0 c hg
    have hlen := stepCaller_length env auth cfg now s 0
    rw [h] at hlen
    match hl : (stepCaller env auth cfg now s 0).callers with
    | [] => rw [hl] at hlen; simp at hlen
    | [x] =>
      rw [hl] at hc1
      simp at hc1
      subst hc1
      exact ⟨x, rfl, fun _ => hpc⟩
    | x :: y :: t => rw [hl] at hlen; simp at hlen

/-- A caller that has returned takes no step. -/
theorem stepCaller_single_done (env : Env)
    (auth : Nat → String → TokenRequest → HttpResult TokenResponse) (cfg : Config)
    (now : Int) (s : Callers)
    (c : Caller) (h : s.callers = [c]) (hpc : 2 ≤ c.pc) : stepCaller env auth cfg now s 0 = s := by
  have hg : s.callers[0]? = some c := by rw [h]; rfl
  rcases stepCaller_cases env auth cfg now s 0 c hg with
    ⟨hp, _, _⟩ | ⟨hp, _, _⟩ | ⟨hp, _⟩ | ⟨_, he⟩
  · omega
  · omega
  · omega
  · exact he

/-- With a single caller the schedule does not matter. -/
theorem runCallers_single (env : Env)
    (auth : Nat → String → TokenRequest → HttpResult TokenResponse) (cfg : Config)
    (now : Int) (schedule : List Nat) :
    ∀ (s : Callers) (c : Caller), s.callers = [c] →
      waitCallers env auth cfg now (runCallers env auth cfg now schedule s)
        = stepCaller env auth cfg now (stepCaller env auth cfg now s 0) 0 := by
  have hw : ∀ (s : Callers) (c : Caller), s.callers = [c] →
      waitCallers env auth cfg now s = stepCaller env auth cfg now (stepCaller env auth cfg now s 0) 0 := by
    intro s c h
    unfold waitCallers
    rw [h]
    rfl
  induction schedule with
  | nil => intro s c h; exact hw s c h
  | cons i rest ih =>
    intro s c h
    obtain ⟨c1, hc1, hpc1⟩ := stepCaller_single env auth cfg now s c i h
    have e : runCallers env auth cfg now (i :: rest) s
        = runCallers env auth cfg now rest (stepCaller env auth cfg now s i) := rfl
    rw [e, ih _ c1 hc1]
    cases i with
    | succ j =>
      have : s.callers[j + 1]? = none := by rw [h]; rfl
      rw [stepCaller_none env auth cfg now s (j + 1) this]
    | zero =>
      obtain ⟨c2, hc2, hpc2⟩ := stepCaller_single env auth cfg now _ c1 0 hc1
      exact stepCaller_single_done env auth cfg now _ c2 hc2 (by
        have := hpc1 rfl
        have := hpc2 rfl
        omega)

/-- A single caller, however it is scheduled, does what `fetchAccessToken`
does against the endpoint's first answer: same results, same cache afterwards,
same events. -/
theorem concurrentFetch_one (env : Env)
    (auth : Nat → String → TokenRequest → HttpResult TokenResponse) (cfg : Config)
    (now : Int) (schedule : List Nat) (cache : Cache) :
    (concurrentFetch env auth cfg now schedule cache 1).callers.map (fun c => c.result)
        = [(fetchAccessToken (envAt env auth 0) cfg now cache).1] ∧
      (concurrentFetch env auth cfg now schedule cache 1).cache
        = (fetchAccessToken (envAt env auth 0) cfg now cache).2.1 ∧
      (concurrentFetch env auth cfg now schedule cache 1).trace
        = (fetchAccessToken (envAt env auth 0) cfg now cache).2.2 := by
  unfold concurrentFetch
  have hs : (Callers.mk cache [] (List.replicate 1 Caller.start)).callers = [Caller.start] :=
    rfl
  rw [runCallers_single env auth cfg now schedule _ _ hs]
  have hg : (Callers.mk cache [] (List.replicate 1 Caller.start)).callers[0]?
      = some Caller.start := rfl
  rcases stepCaller_cases env auth cfg now _ 0 _ hg with
    ⟨_, hhit, he⟩ | ⟨_, hmiss, he⟩ | ⟨hp, _⟩ | ⟨hp, _⟩
  · rw [he, fetchAccessToken_hit (envAt env auth 0) cfg now cache hhit]
    have hd := stepCaller_single_done env auth cfg now
      (Callers.mk cache [] [⟨2, false, Caller.start.sent, ((getCachedToken cache now).1, none)⟩])
      ⟨2, false, Caller.start.sent, ((getCachedToken cache now).1, none)⟩ rfl (le_refl 2)
    simp only [List.replicate, List.set_cons_zero]
    rw [hd]
    exact ⟨rfl, rfl, rfl⟩
  · rw [he, fetchAccessToken_miss (envAt env auth 0) cfg now cache hmiss]
    simp only [List.replicate, List.set_cons_zero]
    have hg2 : (Callers.mk cache []
        [⟨1, true, Caller.start.sent, Caller.start.result⟩]).callers[0]?
        = some ⟨1, true, Caller.start.sent, Caller.start.result⟩ := rfl
    rcases stepCaller_cases env auth cfg now _ 0 _ hg2 with
      ⟨hp, _, _⟩ | ⟨hp, _, _⟩ | ⟨_, he2⟩ | ⟨hp, _⟩
    · simp at hp
    · simp at hp
    · rw [he2]
      exact ⟨rfl, rfl, by simp [authRequests]⟩
    · simp at hp
  · simp [Caller.start] at hp
  · simp [Caller.start] at hp

/-- On a client whose cache held no credential at the start, the cache is
untouched until a token request is sent, so a caller can only have been served
from the cache after some token request. -/
theorem stepCaller_first_miss (env : Env)
    (auth : Nat → String → TokenRequest → HttpResult TokenResponse) (cfg : Config)
    (now : Int) (cache0 : Cache)
    (hurl : env.newRequestErr (cfg.authURL ++ "/v2/token") = none)
    (hmiss : (getCachedToken cache0 now).2 = false) (s : Callers) (i : Nat)
    (h : (authRequests s.trace = 0 → s.cache = cache0) ∧
      ∀ c ∈ s.callers, 2 ≤ c.pc → c.missed = false → 1 ≤ authRequests s.trace) :
    (authRequests (stepCaller env auth cfg now s i).trace = 0 →
        (stepCaller env auth cfg now s i).cache = cache0) ∧
      ∀ c ∈ (stepCaller env auth cfg now s i).callers, 2 ≤ c.pc → c.missed = false →
        1 ≤ authRequests (stepCaller env auth cfg now s i).trace := by
  obtain ⟨hc0, hall⟩ := h
  cases hg : s.callers[i]? with
  | none => rw [stepCaller_none env auth cfg now s i hg]; exact ⟨hc0, hall⟩
  | some c =>
    rcases stepCaller_cases env auth cfg now s i c hg with
      ⟨hp, hhit, he⟩ | ⟨hp, _, he⟩ | ⟨hp, he⟩ | ⟨hp, he⟩
    · rw [he]
      refine ⟨hc0, ?_⟩
      intro c1 hc1 hp1 hm1
      rcases List.mem_or_eq_of_mem_set hc1 with hm | hm
      · exact hall c1 hm hp1 hm1
      · by_contra hcon
        have hz : authRequests s.trace = 0 := by
          simp only at hcon; omega
        rw [hc0 hz, hmiss] at hhit
        simp at hhit
    · rw [he]
      refine ⟨hc0, ?_⟩
      intro c1 hc1 hp1 hm1
      rcases List.mem_or_eq_of_mem_set hc1 with hm | hm
      · exact hall c1 hm hp1 hm1
      · subst hm; simp at hp1
    · rw [he]
      have hreq : authRequests
          (s.trace ++ (refreshToken (envAt env auth (authRequests s.trace)) cfg now
            s.cache).2.2) = authRequests s.trace + 1 := by
        rw [authRequests_append,
          refreshToken_authRequests (envAt env auth (authRequests s.trace)) cfg now s.cache
            hurl]
      simp only
      rw [hreq]
      exact ⟨fun h => by omega, fun _ _ _ _ => by omega⟩
    · rw [he]; exact ⟨hc0, hall⟩

/-! ## Claims on concurrent callers of `fetchAccessToken` -/

/-- C13 (amended): `fetchAccessToken` has no refresh coordination.  For every
`n` concurrent callers on one client and every interleaving of their steps,
when the token request can be built: every caller that observes an absent or
stale credential sends its own authentication request, different from every
other caller's, and receives the result of that request; a caller served from
the cache receives no error; the authentication requests issued are as many as
the callers that observed the miss.  On a cache that holds no credential these
are at least one and at most `n`, and exactly `n` when every caller looks into
the cache before any refresh; on a cache that holds the credential no request
is sent and every caller receives the cached credential; a single caller does
what `fetchAccessToken` does. -/
theorem concurrentFetch_requests (env : Env)
    (auth : Nat → String → TokenRequest → HttpResult TokenResponse) (cfg : Config)
    (now : Int) (schedule : List Nat) (cache : Cache) (n : Nat)
    (hurl : env.newRequestErr (cfg.authURL ++ "/v2/token") = none) :
    (concurrentFetch env auth cfg now schedule cache n).callers.length = n ∧
      authRequests (concurrentFetch env auth cfg now schedule cache n).trace
        = (concurrentFetch env auth cfg now schedule cache n).callers.countP
            (fun c => c.missed) ∧
      (∀ c ∈ (concurrentFetch env auth cfg now schedule cache n).callers,
        (c.missed = true →
          c.sent < authRequests (concurrentFetch env auth cfg now schedule cache n).trace ∧
            c.result = (refreshToken (envAt env auth c.sent) cfg now cache).1) ∧
          (c.missed = false → c.result.2 = none)) ∧
      (∀ (i j : Nat) (ci cj : Caller), i ≠ j →
        (concurrentFetch env auth cfg now schedule cache n).callers[i]? = some ci →
        (concurrentFetch env auth cfg now schedule cache n).callers[j]? = some cj →
        ci.missed = true → cj.missed = true → ci.sent ≠ cj.sent) ∧
      ((getCachedToken cache now).2 = false →
        (0 < n →
          1 ≤ authRequests (concurrentFetch env auth cfg now schedule cache n).trace ∧
            authRequests (concurrentFetch env auth cfg now schedule cache n).trace ≤ n) ∧
        (∀ rest, schedule = List.range n ++ rest →
          authRequests (concurrentFetch env auth cfg now schedule cache n).trace = n)) ∧
      ((getCachedToken cache now).2 = true →
        authRequests (concurrentFetch env auth cfg now schedule cache n).trace = 0 ∧
          ∀ c ∈ (concurrentFetch env auth cfg now schedule cache n).callers,
            c.result = ((getCachedToken cache now).1, none)) ∧
      (n = 1 →
        (concurrentFetch env auth cfg now schedule cache n).callers.map (fun c => c.result)
            = [(fetchAccessToken (envAt env auth 0) cfg now cache).1] ∧
          (concurrentFetch env auth cfg now schedule cache n).cache
            = (fetchAccessToken (envAt env auth 0) cfg now cache).2.1 ∧
          (concurrentFetch env auth cfg now schedule cache n).trace
            = (fetchAccessToken (envAt env auth 0) cfg now cache).2.2) := by
  have hstart : ∀ c ∈ (Callers.mk cache [] (List.replicate n Caller.start)).callers,
      c = Caller.start := by
    intro c hc
    simp only [List.mem_replicate] at hc
    exact hc.2
  -- the invariant of every run
  have h0 : callersInv env auth cfg now cache
      (Callers.mk cache [] (List.replicate n Caller.start)) := by
    refine ⟨?_, ?_, ?_⟩
    · simp [authRequests, List.countP_replicate, Caller.start]
    · intro c hc
      rw [hstart c hc]
      simp [Caller.start]
    · intro i j ci cj _ hi _ hp _ _ _
      obtain ⟨hi1, hi2⟩ := List.getElem?_eq_some_iff.mp hi
      have := hstart ci (by rw [← hi2]; exact List.getElem_mem hi1)
      rw [this] at hp
      simp [Caller.start] at hp
  have h1 := runCallers_invariant env auth cfg now _
    (fun s i hs => stepCaller_inv env auth cfg now cache hurl s i hs) schedule _ h0
  have h2 := waitCallers_invariant env auth cfg now _
    (fun s i hs => stepCaller_inv env auth cfg now cache hurl s i hs) _ h1
  have hdone := waitCallers_done env auth cfg now
    (runCallers env auth cfg now schedule (Callers.mk cache [] (List.replicate n Caller.start)))
  have hlen1 := runCallers_invariant env auth cfg now (fun x => x.callers.length = n)
    (fun x i hx => (stepCaller_length env auth cfg now x i).trans hx) schedule
    (Callers.mk cache [] (List.replicate n Caller.start)) (by simp)
  have hlen2 := waitCallers_invariant env auth cfg now (fun x => x.callers.length = n)
    (fun x i hx => (stepCaller_length env auth cfg now x i).trans hx) _ hlen1
  have hcount : authRequests (concurrentFetch env auth cfg now schedule cache n).trace
      = (concurrentFetch env auth cfg now schedule cache n).callers.countP
          (fun c => c.missed) := by
    unfold concurrentFetch
    rw [h2.1]
    apply List.countP_congr
    intro c hc
    have := hdone c hc
    simp [this]
  refine ⟨hlen2, hcount, ?_, ?_, ?_, ?_, ?_⟩
  · intro c hc
    exact ⟨(h2.2.1 c hc).2.1 (hdone c hc), (h2.2.1 c hc).2.2⟩
  · intro i j ci cj hne hi hj hmi hmj
    have mem : ∀ (k : Nat) (c : Caller),
        (concurrentFetch env auth cfg now schedule cache n).callers[k]? = some c →
        c ∈ (concurrentFetch env auth cfg now schedule cache n).callers := by
      intro k c hk
      obtain ⟨hk1, hk2⟩ := List.getElem?_eq_some_iff.mp hk
      rw [← hk2]; exact List.getElem_mem hk1
    exact h2.2.2 i j ci cj hne hi hj (hdone ci (mem i ci hi)) hmi (hdone cj (mem j cj hj)) hmj
  · intro hmiss
    constructor
    · intro hn
      constructor
      · have k0 : (authRequests (Callers.mk cache [] (List.replicate n Caller.start)).trace = 0 →
            (Callers.mk cache [] (List.replicate n Caller.start)).cache = cache) ∧
            ∀ c ∈ (Callers.mk cache [] (List.replicate n Caller.start)).callers,
              2 ≤ c.pc → c.missed = false →
                1 ≤ authRequests (Callers.mk cache [] (List.replicate n Caller.start)).trace := by
          refine ⟨fun _ => rfl, ?_⟩
          intro c hc hp
          rw [hstart c hc] at hp
          simp [Caller.start] at hp
        have k1 := runCallers_invariant env auth cfg now _
          (fun s i hs => stepCaller_first_miss env auth cfg now cache hurl hmiss s i hs)
          schedule _ k0
        have k2 := waitCallers_invariant env auth cfg now _
          (fun s i hs => stepCaller_first_miss env auth cfg now cache hurl hmiss s i hs)
          _ k1
        have hpos : 0 < (concurrentFetch env auth cfg now schedule cache n).callers.length := by
          unfold concurrentFetch; omega
        have hc0 := List.getElem_mem hpos
        cases hm : ((concurrentFetch env auth cfg now schedule cache n).callers[0]).missed with
        | true =>
          rw [hcount]
          exact List.countP_pos_iff.mpr ⟨_, hc0, hm⟩
        | false => exact k2.2 _ hc0 (hdone _ hc0) hm
      · rw [hcount]
        have := List.countP_le_length (fun c => c.missed)
          (l := (concurrentFetch env auth cfg now schedule cache n).callers)
        unfold concurrentFetch at this ⊢
        omega
    · intro rest hs
      subst hs
      obtain ⟨_, _, hl, hall⟩ := runCallers_lookups env auth cfg now cache n hmiss n (le_refl n)
      have m0 : ∀ c ∈ (runCallers env auth cfg now (List.range n)
          (Callers.mk cache [] (List.replicate n Caller.start))).callers,
          1 ≤ c.pc ∧ c.missed = true := by
        intro c hc
        obtain ⟨j, hj, hcj⟩ := List.getElem_of_mem hc
        have hg : (runCallers env auth cfg now (List.range n)
            (Callers.mk cache [] (List.replicate n Caller.start))).callers[j]? = some c := by
          rw [List.getElem?_eq_getElem hj, hcj]
        obtain ⟨a1, a2⟩ := (hall j c hg).1 (by omega)
        exact ⟨by omega, a2⟩
      have e : runCallers env auth cfg now (List.range n ++ rest)
            (Callers.mk cache [] (List.replicate n Caller.start))
          = runCallers env auth cfg now rest
              (runCallers env auth cfg now (List.range n)
                (Callers.mk cache [] (List.replicate n Caller.start))) := by
        simp only [runCallers, List.foldl_append]
      have m1 := runCallers_invariant env auth cfg now _
        (fun s i hs => stepCaller_all_missed env auth cfg now s i hs) rest _ m0
      have m2 := waitCallers_invariant env auth cfg now _
        (fun s i hs => stepCaller_all_missed env auth cfg now s i hs) _ m1
      rw [hcount]
      unfold concurrentFetch
      rw [e] at hlen2 ⊢
      rw [List.countP_eq_length.mpr, hlen2]
      intro c hc
      exact (m2 c hc).2
  · intro hhit
    have g0 : (Callers.mk cache [] (List.replicate n Caller.start)).cache = cache ∧
        (Callers.mk cache [] (List.replicate n Caller.start)).trace = [] ∧
        ∀ c ∈ (Callers.mk cache [] (List.replicate n Caller.start)).callers, c.pc = 0 ∨
          (2 ≤ c.pc ∧ c.missed = false ∧
            c.result = ((getCachedToken cache now).1, none)) := by
      refine ⟨rfl, rfl, ?_⟩
      intro c hc
      rw [hstart c hc]
      left; rfl
    have g1 := runCallers_invariant env auth cfg now _
      (fun s i hs => stepCaller_all_hit env auth cfg now cache hhit s i hs) schedule _ g0
    have g2 := waitCallers_invariant env auth cfg now _
      (fun s i hs => stepCaller_all_hit env auth cfg now cache hhit s i hs) _ g1
    unfold concurrentFetch
    refine ⟨by rw [g2.2.1]; rfl, ?_⟩
    intro c hc
    rcases g2.2.2 c hc with h | ⟨_, _, h⟩
    · have := hdone c hc
      omega
    · exact h
  · intro hn
    subst hn
    exact concurrentFetch_one env auth cfg now schedule cache

/-- Witness of `concurrentFetch_requests`: two callers on an empty cache that
both look into the cache before either refreshes send two requests; two callers
on the seeded cache send none; one caller does what `fetchAccessToken` does. -/
theorem concurrentFetch_requests_witness :
    (getCachedToken emptyCache 0).2 = false ∧
      [0, 1, 0, 1] = List.range 2 ++ [0, 1] ∧
      (concurrentFetch (tokenEnv 200 3600) twoTokenServer testConfig 0 [0, 1, 0, 1] emptyCache
          2).callers.length = 2 ∧
      authRequests (concurrentFetch (tokenEnv 200 3600) twoTokenServer testConfig 0 [0, 1, 0, 1]
          emptyCache 2).trace = 2 ∧
      (getCachedToken seededCache 0).2 = true ∧
      authRequests (concurrentFetch (tokenEnv 200 3600) twoTokenServer testConfig 0 [0, 1, 0, 1]
          seededCache 2).trace = 0 ∧
      (concurrentFetch (tokenEnv 200 3600) twoTokenServer testConfig 0 [0, 0] emptyCache
          1).trace
        = (fetchAccessToken (envAt (tokenEnv 200 3600) twoTokenServer 0) testConfig 0
            emptyCache).2.2 :=
  ⟨by decide, by decide,
    (concurrentFetch_requests (tokenEnv 200 3600) twoTokenServer testConfig 0 [0, 1, 0, 1]
      emptyCache 2 (by decide)).1,
    ((concurrentFetch_requests (tokenEnv 200 3600) twoTokenServer testConfig 0 [0, 1, 0, 1]
      emptyCache 2 (by decide)).2.2.2.2.1 (by decide)).2 [0, 1] (by decide),
    by decide,
    ((concurrentFetch_requests (tokenEnv 200 3600) twoTokenServer testConfig 0 [0, 1, 0, 1]
      seededCache 2 (by decide)).2.2.2.2.2.1 (by decide)).1,
    ((concurrentFetch_requests (tokenEnv 200 3600) twoTokenServer testConfig 0 [0, 0]
      emptyCache 1 (by decide)).2.2.2.2.2.2 rfl).2.2⟩

/-- C13 (counterexample): two callers on an empty cache, and a token endpoint
that hands out a fresh token on every request.  When both look into the cache
before either has stored a token, both observe the miss, two authentication
requests are issued and the callers leave with different tokens; when the
second caller starts after the first has returned, it is served from the cache
and one request is issued. -/
theorem concurrentFetch_two_requests :
    (getCachedToken emptyCache 0).2 = false ∧
      authRequests (concurrentFetch (tokenEnv 200 3600) twoTokenServer testConfig 0 [0, 1, 0, 1]
          emptyCache 2).trace = 2 ∧
      (concurrentFetch (tokenEnv 200 3600) twoTokenServer testConfig 0 [0, 1, 0, 1] emptyCache
          2).callers.map (fun c => (c.result.1.accessToken, c.result.2))
        = [("firstToken", none), ("secondToken", none)] ∧
      authRequests (concurrentFetch (tokenEnv 200 3600) twoTokenServer testConfig 0 [0, 0, 1, 1]
          emptyCache 2).trace = 1 ∧
      (concurrentFetch (tokenEnv 200 3600) twoTokenServer testConfig 0 [0, 0, 1, 1] emptyCache
          2).callers.map (fun c => (c.result.1.accessToken, c.result.2))
        = [("firstToken", none), ("firstToken", none)] := by
  decide
end Salesforce
